import Mathlib

/-!
Verification of the token-lifecycle and OAuth-gateway core of the Feishu-MCP
server. The TypeScript sources are shallowly embedded: pure functions become
Lean functions, stateful cache operations become explicit state passing over
an association-list model of the JavaScript `Map`, fallible operations return
`Option` or `Except`, and the upstream HTTP calls (Feishu token endpoints)
are passed in as explicit outcome parameters. JavaScript numbers appearing in
the code are integers (millisecond / second unix timestamps, TTLs), embedded
as `Nat` / `Int`; JavaScript truthiness of a string is `≠ ""`, of a number
`≠ 0`, of an optional value `Option.isSome` combined with the above.

The byte-level part (Node `Buffer` base64, UTF-8, `JSON.parse` /
`JSON.stringify`) is embedded over `List Nat` (bytes, each < 256) and
`List Char`. JSON numbers are modelled as integers: every number the gateway
itself serializes is an integer timestamp, and IEEE-754 fractional values are
outside the scope of this embedding, so the model parser rejects fraction and
exponent forms.
-/

set_option linter.unusedVariables false

/-! ## Byte-level helpers: Node Buffer base64 -/

namespace B64

/-- Character of a sextet in the standard base64 alphabet, as used by
Node `Buffer.prototype.toString` with encoding `base64`. -/
def encChar (n : Nat) : Char :=
  if n < 26 then Char.ofNat (65 + n)
  else if n < 52 then Char.ofNat (97 + (n - 26))
  else if n < 62 then Char.ofNat (48 + (n - 52))
  else if n = 62 then Char.ofNat 43
  else Char.ofNat 47

/-- Sextet of a base64 alphabet character; `none` for characters outside the
alphabet, which Node's lenient decoder skips (including the pad `=`). -/
def decChar (c : Char) : Option Nat :=
  let v := c.toNat
  if 65 ≤ v ∧ v ≤ 90 then some (v - 65)
  else if 97 ≤ v ∧ v ≤ 122 then some (26 + (v - 97))
  else if 48 ≤ v ∧ v ≤ 57 then some (52 + (v - 48))
  else if v = 43 then some 62
  else if v = 47 then some 63
  else none

/-- Base64 encoding of a byte list (standard alphabet, `=` padding), the
model of `Buffer.from(bytes).toString` with encoding `base64`. -/
def encode : List Nat → List Char
  | [] => []
  | [a] => [encChar (a / 4), encChar (a % 4 * 16), Char.ofNat 61, Char.ofNat 61]
  | [a, b] => [encChar (a / 4), encChar (a % 4 * 16 + b / 16), encChar (b % 16 * 4), Char.ofNat 61]
  | a :: b :: c :: rest =>
    encChar (a / 4) :: encChar (a % 4 * 16 + b / 16) :: encChar (b % 16 * 4 + c / 64) ::
      encChar (c % 64) :: encode rest

/-- Reassemble bytes from a cleaned sextet stream: groups of four sextets give
three bytes, a trailing pair gives one byte, a trailing triple two bytes, and
a trailing single sextet is dropped, as in Node's lenient base64 decoder. -/
def unsextets : List Nat → List Nat
  | a :: b :: c :: d :: rest =>
    (a * 4 + b / 16) :: (b % 16 * 16 + c / 4) :: (c % 4 * 64 + d) :: unsextets rest
  | [a, b] => [a * 4 + b / 16]
  | [a, b, c] => [a * 4 + b / 16, b % 16 * 16 + c / 4]
  | _ => []

/-- Model of `Buffer.from(s, 'base64')`: Node skips every character outside
the base64 alphabet (whitespace, `=`, garbage) and decodes the rest. -/
def decode (s : List Char) : List Nat :=
  unsextets (s.filterMap decChar)

theorem decChar_encChar' : ∀ n, n < 64 → decChar (encChar n) = some n := by decide

theorem decChar_encChar {n : Nat} (h : n < 64) : decChar (encChar n) = some n :=
  decChar_encChar' n h

theorem decChar_pad : decChar (Char.ofNat 61) = none := by decide

/-- Base64 decode is a left inverse of encode on byte lists. -/
theorem decode_encode : ∀ (l : List Nat), (∀ x ∈ l, x < 256) → decode (encode l) = l := by
  intro l
  induction l using encode.induct with
  | case1 =>
    intro _
    rfl
  | case2 a =>
    intro hb
    have ha : a < 256 := hb a (by simp)
    simp only [decode, encode, List.filterMap_cons,
      decChar_encChar (show a / 4 < 64 by omega),
      decChar_encChar (show a % 4 * 16 < 64 by omega), decChar_pad, List.filterMap_nil]
    show [a / 4 * 4 + a % 4 * 16 / 16] = [a]
    have : a / 4 * 4 + a % 4 * 16 / 16 = a := by omega
    rw [this]
  | case3 a b =>
    intro hb
    have ha : a < 256 := hb a (by simp)
    have hb2 : b < 256 := hb b (by simp)
    simp only [decode, encode, List.filterMap_cons,
      decChar_encChar (show a / 4 < 64 by omega),
      decChar_encChar (show a % 4 * 16 + b / 16 < 64 by omega),
      decChar_encChar (show b % 16 * 4 < 64 by omega), decChar_pad, List.filterMap_nil]
    show [a / 4 * 4 + (a % 4 * 16 + b / 16) / 16,
          (a % 4 * 16 + b / 16) % 16 * 16 + b % 16 * 4 / 4] = [a, b]
    have e1 : a / 4 * 4 + (a % 4 * 16 + b / 16) / 16 = a := by omega
    have e2 : (a % 4 * 16 + b / 16) % 16 * 16 + b % 16 * 4 / 4 = b := by omega
    rw [e1, e2]
  | case4 a b c rest ih =>
    intro hb
    have ha : a < 256 := hb a (by simp)
    have hb2 : b < 256 := hb b (by simp)
    have hc : c < 256 := hb c (by simp)
    have hrest : ∀ x ∈ rest, x < 256 := fun x hx => hb x (by simp [hx])
    simp only [decode, encode, List.filterMap_cons,
      decChar_encChar (show a / 4 < 64 by omega),
      decChar_encChar (show a % 4 * 16 + b / 16 < 64 by omega),
      decChar_encChar (show b % 16 * 4 + c / 64 < 64 by omega),
      decChar_encChar (show c % 64 < 64 by omega)]
    show unsextets (a / 4 :: (a % 4 * 16 + b / 16) :: (b % 16 * 4 + c / 64) :: c % 64 ::
      (encode rest).filterMap decChar) = a :: b :: c :: rest
    rw [unsextets]
    have e1 : a / 4 * 4 + (a % 4 * 16 + b / 16) / 16 = a := by omega
    have e2 : (a % 4 * 16 + b / 16) % 16 * 16 + (b % 16 * 4 + c / 64) / 4 = b := by omega
    have e3 : (b % 16 * 4 + c / 64) % 4 * 64 + c % 64 = c := by omega
    rw [e1, e2, e3]
    have := ih hrest
    simp only [decode] at this
    rw [this]

end B64

/-! ## Byte-level helpers: UTF-8, the model of `Buffer.from(string)` and
`Buffer.prototype.toString` with encoding `utf-8` -/

namespace Utf8

/-- UTF-8 bytes of one unicode scalar value (`Char` guarantees validity). -/
def encChar (c : Char) : List Nat :=
  let n := c.toNat
  if n < 0x80 then [n]
  else if n < 0x800 then [0xC0 + n / 64, 0x80 + n % 64]
  else if n < 0x10000 then [0xE0 + n / 4096, 0x80 + n / 64 % 64, 0x80 + n % 64]
  else [0xF0 + n / 262144, 0x80 + n / 4096 % 64, 0x80 + n / 64 % 64, 0x80 + n % 64]

/-- UTF-8 encoding of a character list. -/
def encodeList : List Char → List Nat
  | [] => []
  | c :: cs => encChar c ++ encodeList cs

/-- UTF-8 encoding of a string, the model of `Buffer.from(s)`. -/
def encode (s : String) : List Nat := encodeList s.data

/-- Unicode replacement character, emitted by Node for malformed sequences. -/
def repl : Char := Char.ofNat 0xFFFD

/-- Lenient UTF-8 decoding, the model of `buffer.toString()`: well-formed
sequences decode to their scalar value, malformed bytes become U+FFFD. The
exact resynchronization of Node's decoder on malformed input is irrelevant to
the claims (all hypotheses route through well-formed encodings or through the
decoded result itself); this model consumes one byte per malformed position. -/
def decodeStep (b : Nat) (rest : List Nat) : Char × List Nat :=
  if b < 0x80 then (Char.ofNat b, rest)
  else if b < 0xC2 then (repl, rest)
  else if b < 0xE0 then
    match rest with
    | b2 :: r2 =>
      if 0x80 ≤ b2 ∧ b2 < 0xC0 then
        (Char.ofNat ((b - 0xC0) * 64 + (b2 - 0x80)), r2)
      else (repl, b2 :: r2)
    | [] => (repl, [])
  else if b < 0xF0 then
    match rest with
    | b2 :: b3 :: r3 =>
      if 0x80 ≤ b2 ∧ b2 < 0xC0 ∧ 0x80 ≤ b3 ∧ b3 < 0xC0 then
        let n := (b - 0xE0) * 4096 + (b2 - 0x80) * 64 + (b3 - 0x80)
        if n < 0x800 ∨ (0xD800 ≤ n ∧ n < 0xE000) then (repl, r3)
        else (Char.ofNat n, r3)
      else (repl, b2 :: b3 :: r3)
    | _ => (repl, [])
  else if b < 0xF5 then
    match rest with
    | b2 :: b3 :: b4 :: r4 =>
      if 0x80 ≤ b2 ∧ b2 < 0xC0 ∧ 0x80 ≤ b3 ∧ b3 < 0xC0 ∧ 0x80 ≤ b4 ∧ b4 < 0xC0 then
        let n := (b - 0xF0) * 262144 + (b2 - 0x80) * 4096 + (b3 - 0x80) * 64 + (b4 - 0x80)
        if n < 0x10000 ∨ 0x110000 ≤ n then (repl, r4)
        else (Char.ofNat n, r4)
      else (repl, b2 :: b3 :: b4 :: r4)
    | _ => (repl, [])
  else (repl, rest)

theorem decodeStep_shrink (b : Nat) (rest : List Nat) :
    (decodeStep b rest).2.length ≤ rest.length := by
  unfold decodeStep
  split
  · simp
  split
  · simp
  split
  · match rest with
    | [] => simp
    | b2 :: r2 =>
      simp only
      split <;> simp
  split
  · match rest with
    | [] => simp
    | [b2] => simp
    | b2 :: b3 :: r3 =>
      simp only
      split
      · split <;> simp +arith
      · simp
  split
  · match rest with
    | [] => simp
    | [b2] => simp
    | [b2, b3] => simp
    | b2 :: b3 :: b4 :: r4 =>
      simp only
      split
      · split <;> simp +arith
      · simp
  · simp

def decode : List Nat → List Char
  | [] => []
  | b :: rest =>
    (decodeStep b rest).1 :: decode (decodeStep b rest).2
termination_by l => l.length
decreasing_by
  have := decodeStep_shrink b rest
  simp only [List.length_cons]
  omega

theorem decode_nil : decode [] = [] := by
  rw [decode.eq_def]

theorem decode_cons (b : Nat) (rest : List Nat) :
    decode (b :: rest) = (decodeStep b rest).1 :: decode (decodeStep b rest).2 := by
  rw [decode.eq_def]

theorem decode_one {b : Nat} (rest : List Nat) (h : b < 0x80) :
    decode (b :: rest) = Char.ofNat b :: decode rest := by
  rw [decode_cons]
  have : decodeStep b rest = (Char.ofNat b, rest) := by
    unfold decodeStep
    rw [if_pos h]
  rw [this]

theorem decode_two {b b2 : Nat} (rest : List Nat) (h1 : 0xC2 ≤ b) (h2 : b < 0xE0)
    (h3 : 0x80 ≤ b2) (h4 : b2 < 0xC0) :
    decode (b :: b2 :: rest) = Char.ofNat ((b - 0xC0) * 64 + (b2 - 0x80)) :: decode rest := by
  rw [decode_cons]
  have : decodeStep b (b2 :: rest) = (Char.ofNat ((b - 0xC0) * 64 + (b2 - 0x80)), rest) := by
    unfold decodeStep
    rw [if_neg (by omega), if_neg (by omega), if_pos (by omega)]
    simp only [if_pos (show 0x80 ≤ b2 ∧ b2 < 0xC0 from ⟨h3, h4⟩)]
  rw [this]

theorem decode_three {b b2 b3 : Nat} (rest : List Nat) (h1 : 0xE0 ≤ b) (h2 : b < 0xF0)
    (h3 : 0x80 ≤ b2) (h4 : b2 < 0xC0) (h5 : 0x80 ≤ b3) (h6 : b3 < 0xC0)
    (h7 : ¬((b - 0xE0) * 4096 + (b2 - 0x80) * 64 + (b3 - 0x80) < 0x800 ∨
      (0xD800 ≤ (b - 0xE0) * 4096 + (b2 - 0x80) * 64 + (b3 - 0x80) ∧
        (b - 0xE0) * 4096 + (b2 - 0x80) * 64 + (b3 - 0x80) < 0xE000))) :
    decode (b :: b2 :: b3 :: rest) =
      Char.ofNat ((b - 0xE0) * 4096 + (b2 - 0x80) * 64 + (b3 - 0x80)) :: decode rest := by
  rw [decode_cons]
  have : decodeStep b (b2 :: b3 :: rest) =
      (Char.ofNat ((b - 0xE0) * 4096 + (b2 - 0x80) * 64 + (b3 - 0x80)), rest) := by
    unfold decodeStep
    rw [if_neg (by omega), if_neg (by omega), if_neg (by omega), if_pos (by omega)]
    simp only [if_pos (show 0x80 ≤ b2 ∧ b2 < 0xC0 ∧ 0x80 ≤ b3 ∧ b3 < 0xC0 from ⟨h3, h4, h5, h6⟩)]
    rw [if_neg h7]
  rw [this]

theorem decode_four {b b2 b3 b4 : Nat} (rest : List Nat) (h1 : 0xF0 ≤ b) (h2 : b < 0xF5)
    (h3 : 0x80 ≤ b2) (h4 : b2 < 0xC0) (h5 : 0x80 ≤ b3) (h6 : b3 < 0xC0)
    (h7 : 0x80 ≤ b4) (h8 : b4 < 0xC0)
    (h9 : ¬((b - 0xF0) * 262144 + (b2 - 0x80) * 4096 + (b3 - 0x80) * 64 + (b4 - 0x80) < 0x10000 ∨
      0x110000 ≤ (b - 0xF0) * 262144 + (b2 - 0x80) * 4096 + (b3 - 0x80) * 64 + (b4 - 0x80))) :
    decode (b :: b2 :: b3 :: b4 :: rest) =
      Char.ofNat ((b - 0xF0) * 262144 + (b2 - 0x80) * 4096 + (b3 - 0x80) * 64 + (b4 - 0x80)) ::
        decode rest := by
  rw [decode_cons]
  have : decodeStep b (b2 :: b3 :: b4 :: rest) =
      (Char.ofNat ((b - 0xF0) * 262144 + (b2 - 0x80) * 4096 + (b3 - 0x80) * 64 + (b4 - 0x80)),
        rest) := by
    unfold decodeStep
    rw [if_neg (by omega), if_neg (by omega), if_neg (by omega), if_neg (by omega),
      if_pos (by omega)]
    simp only [if_pos (show 0x80 ≤ b2 ∧ b2 < 0xC0 ∧ 0x80 ≤ b3 ∧ b3 < 0xC0 ∧
      0x80 ≤ b4 ∧ b4 < 0xC0 from ⟨h3, h4, h5, h6, h7, h8⟩)]
    rw [if_neg h9]
  rw [this]

theorem char_valid_nat (c : Char) :
    c.toNat < 55296 ∨ 57343 < c.toNat ∧ c.toNat < 1114112 := c.valid

theorem encChar_bytes_lt (c : Char) : ∀ x ∈ encChar c, x < 256 := by
  have hval := char_valid_nat c
  rcases hval with h | ⟨h1, h2⟩ <;>
  · intro x hx
    simp only [encChar] at hx
    split at hx <;> [skip; split at hx] <;> [skip; skip; split at hx] <;>
      simp only [List.mem_cons, List.mem_singleton, List.not_mem_nil, or_false] at hx <;>
      rcases hx with rfl | rfl | rfl | rfl <;> omega

theorem encodeList_bytes_lt : ∀ (l : List Char), ∀ x ∈ encodeList l, x < 256 := by
  intro l
  induction l with
  | nil => intro x hx; simp [encodeList] at hx
  | cons c cs ih =>
    intro x hx
    simp only [encodeList, List.mem_append] at hx
    rcases hx with hx | hx
    · exact encChar_bytes_lt c x hx
    · exact ih x hx

/-- Decoding inverts encoding one character at a time. -/
theorem decode_encChar (c : Char) (rest : List Nat) :
    decode (encChar c ++ rest) = c :: decode rest := by
  have hval := char_valid_nat c
  by_cases h1 : c.toNat < 0x80
  · have he : encChar c = [c.toNat] := by
      simp only [encChar]
      rw [if_pos h1]
    rw [he]
    show decode (c.toNat :: rest) = c :: decode rest
    rw [decode_one rest h1, Char.ofNat_toNat]
  · by_cases h2 : c.toNat < 0x800
    · have he : encChar c = [0xC0 + c.toNat / 64, 0x80 + c.toNat % 64] := by
        simp only [encChar]
        rw [if_neg h1, if_pos h2]
      rw [he]
      show decode ((0xC0 + c.toNat / 64) :: (0x80 + c.toNat % 64) :: rest) = c :: decode rest
      rw [decode_two rest (by omega) (by omega) (by omega) (by omega)]
      have e : (0xC0 + c.toNat / 64 - 0xC0) * 64 + (0x80 + c.toNat % 64 - 0x80) = c.toNat := by
        omega
      rw [e, Char.ofNat_toNat]
    · by_cases h3 : c.toNat < 0x10000
      · have he : encChar c = [0xE0 + c.toNat / 4096, 0x80 + c.toNat / 64 % 64,
            0x80 + c.toNat % 64] := by
          simp only [encChar]
          rw [if_neg h1, if_neg h2, if_pos h3]
        rw [he]
        show decode ((0xE0 + c.toNat / 4096) :: (0x80 + c.toNat / 64 % 64) ::
          (0x80 + c.toNat % 64) :: rest) = c :: decode rest
        rw [decode_three rest (by omega) (by omega) (by omega) (by omega) (by omega) (by omega)
          (by omega)]
        have e : (0xE0 + c.toNat / 4096 - 0xE0) * 4096 + (0x80 + c.toNat / 64 % 64 - 0x80) * 64 +
            (0x80 + c.toNat % 64 - 0x80) = c.toNat := by omega
        rw [e, Char.ofNat_toNat]
      · have he : encChar c = [0xF0 + c.toNat / 262144, 0x80 + c.toNat / 4096 % 64,
            0x80 + c.toNat / 64 % 64, 0x80 + c.toNat % 64] := by
          simp only [encChar]
          rw [if_neg h1, if_neg h2, if_neg h3]
        rw [he]
        show decode ((0xF0 + c.toNat / 262144) :: (0x80 + c.toNat / 4096 % 64) ::
          (0x80 + c.toNat / 64 % 64) :: (0x80 + c.toNat % 64) :: rest) = c :: decode rest
        rw [decode_four rest (by omega) (by omega) (by omega) (by omega) (by omega) (by omega)
          (by omega) (by omega) (by omega)]
        have e : (0xF0 + c.toNat / 262144 - 0xF0) * 262144 +
            (0x80 + c.toNat / 4096 % 64 - 0x80) * 4096 +
            (0x80 + c.toNat / 64 % 64 - 0x80) * 64 + (0x80 + c.toNat % 64 - 0x80) = c.toNat := by
          omega
        rw [e, Char.ofNat_toNat]

/-- UTF-8 decode is a left inverse of encode on character lists. -/
theorem decode_encodeList : ∀ (l : List Char), decode (encodeList l) = l := by
  intro l
  induction l with
  | nil => exact decode_nil
  | cons c cs ih =>
    show decode (encChar c ++ encodeList cs) = c :: cs
    rw [decode_encChar, ih]

end Utf8

/-! ## JSON, the model of `JSON.stringify` / `JSON.parse`

Numbers are modelled as integers: every number this gateway serializes is an
integer unix timestamp, and IEEE-754 fractional values are outside the scope
of a shallow embedding, so the model parser rejects fraction and exponent
forms. Object member access follows JavaScript semantics (for duplicate keys
the last assignment wins). -/

namespace Js

inductive Json where
  | null
  | bool (b : Bool)
  | num (n : Int)
  | str (s : String)
  | arr (elems : List Json)
  | obj (fields : List (String × Json))

/-- Property access `parsed[k]` on a parsed JSON value: `none` models the
JavaScript `undefined` (absent member or non-object receiver); for duplicate
keys the last assignment wins, as in a JavaScript object literal. -/
def jGet (j : Json) (k : String) : Option Json :=
  match j with
  | .obj fs => fs.foldl (fun acc p => if p.1 = k then some p.2 else acc) none
  | _ => none

/-- String projection of a member, for stating field equalities. -/
def jGetStr (j : Json) (k : String) : Option String :=
  match jGet j k with
  | some (.str s) => some s
  | _ => none

/-- Integer projection of a member. -/
def jGetNum (j : Json) (k : String) : Option Int :=
  match jGet j k with
  | some (.num n) => some n
  | _ => none

def hexDigit (n : Nat) : Char :=
  if n < 10 then Char.ofNat (48 + n) else Char.ofNat (87 + n)

/-- Escaping of one character inside a JSON string literal, exactly the set
escaped by `JSON.stringify`: quote, backslash, the five short escapes, and
`\u00XX` for the remaining control characters. -/
def escapeChar (c : Char) : List Char :=
  if c.toNat = 34 then [Char.ofNat 92, Char.ofNat 34]
  else if c.toNat = 92 then [Char.ofNat 92, Char.ofNat 92]
  else if c.toNat = 8 then [Char.ofNat 92, Char.ofNat 98]
  else if c.toNat = 9 then [Char.ofNat 92, Char.ofNat 116]
  else if c.toNat = 10 then [Char.ofNat 92, Char.ofNat 110]
  else if c.toNat = 12 then [Char.ofNat 92, Char.ofNat 102]
  else if c.toNat = 13 then [Char.ofNat 92, Char.ofNat 114]
  else if c.toNat < 32 then
    [Char.ofNat 92, Char.ofNat 117, Char.ofNat 48, Char.ofNat 48,
      hexDigit (c.toNat / 16), hexDigit (c.toNat % 16)]
  else [c]

def escList : List Char → List Char
  | [] => []
  | c :: cs => escapeChar c ++ escList cs

/-- Serialized JSON string literal, quotes included. -/
def quoteStr (s : String) : List Char :=
  Char.ofNat 34 :: (escList s.data ++ [Char.ofNat 34])

/-- Decimal digits of a natural number, most significant first. -/
def natDigits (n : Nat) : List Char :=
  if n < 10 then [Char.ofNat (48 + n)]
  else natDigits (n / 10) ++ [Char.ofNat (48 + n % 10)]
termination_by n
decreasing_by omega

/-- Decimal form of an integer. -/
def intDigits (i : Int) : List Char :=
  if i < 0 then Char.ofNat 45 :: natDigits (-i).toNat else natDigits i.toNat

mutual

/-- Model of `JSON.stringify` (no spacing argument). -/
def stringify : Json → List Char
  | .null => "null".data
  | .bool true => "true".data
  | .bool false => "false".data
  | .num n => intDigits n
  | .str s => quoteStr s
  | .arr es => Char.ofNat 91 :: (stringifyElems es ++ [Char.ofNat 93])
  | .obj fs => Char.ofNat 123 :: (stringifyFields fs ++ [Char.ofNat 125])

def stringifyElems : List Json → List Char
  | [] => []
  | [e] => stringify e
  | e :: es => stringify e ++ Char.ofNat 44 :: stringifyElems es

def stringifyFields : List (String × Json) → List Char
  | [] => []
  | [(k, v)] => quoteStr k ++ Char.ofNat 58 :: stringify v
  | (k, v) :: fs =>
    quoteStr k ++ Char.ofNat 58 :: stringify v ++ Char.ofNat 44 :: stringifyFields fs

end

def isWs (c : Char) : Bool :=
  c.toNat = 32 ∨ c.toNat = 9 ∨ c.toNat = 10 ∨ c.toNat = 13

def skipWs : List Char → List Char
  | [] => []
  | c :: cs => if isWs c then skipWs cs else c :: cs

def isDigit (c : Char) : Bool := 48 ≤ c.toNat ∧ c.toNat ≤ 57

def hexVal (c : Char) : Option Nat :=
  if 48 ≤ c.toNat ∧ c.toNat ≤ 57 then some (c.toNat - 48)
  else if 97 ≤ c.toNat ∧ c.toNat ≤ 102 then some (c.toNat - 87)
  else if 65 ≤ c.toNat ∧ c.toNat ≤ 70 then some (c.toNat - 55)
  else none

/-- Lookahead after a `\uXXXX` high surrogate with value `u`: a following
`\uXXXX` low surrogate combines into one supplementary character. -/
def pairLow (u : Nat) (cs3 : List Char) : Option (Char × List Char) :=
  match cs3 with
  | e2 :: u2 :: k1 :: k2 :: k3 :: k4 :: cs4 =>
    if e2.toNat = 92 ∧ u2.toNat = 117 then
      match hexVal k1, hexVal k2, hexVal k3, hexVal k4 with
      | some w1, some w2, some w3, some w4 =>
        let lo := w1 * 4096 + w2 * 256 + w3 * 16 + w4
        if 0xDC00 ≤ lo ∧ lo < 0xE000 then
          some (Char.ofNat (0x10000 + (u - 0xD800) * 1024 + (lo - 0xDC00)), cs4)
        else none
      | _, _, _, _ => none
    else none
  | _ => none

theorem pairLow_length (u : Nat) (cs3 : List Char) :
    ∀ p, pairLow u cs3 = some p → p.2.length + 6 ≤ cs3.length := by
  intro p hp
  unfold pairLow at hp
  match cs3, hp with
  | e2 :: u2 :: k1 :: k2 :: k3 :: k4 :: cs4, hp =>
    simp only at hp
    split at hp
    · split at hp
      · split at hp
        · simp only [Option.some.injEq] at hp
          subst hp
          simp
        · exact absurd hp (by simp)
      · exact absurd hp (by simp)
    · exact absurd hp (by simp)

/-- One step inside a JSON string literal: the closing quote, one decoded
character (possibly from an escape), or a syntax error. -/
inductive StrStep where
  | done (rest : List Char)
  | cont (ch : Char) (rest : List Char)
  | fail

/-- Step for the four hex digits after `\u` (and a possible surrogate
pair continuation). -/
def uStep : List Char → StrStep
  | h1 :: h2 :: h3 :: h4 :: cs3 =>
    match hexVal h1, hexVal h2, hexVal h3, hexVal h4 with
    | some v1, some v2, some v3, some v4 =>
      let u := v1 * 4096 + v2 * 256 + v3 * 16 + v4
      if 0xD800 ≤ u ∧ u < 0xDC00 then
        match pairLow u cs3 with
        | some (ch, cs4) => .cont ch cs4
        | none => .cont Utf8.repl cs3
      else if 0xDC00 ≤ u ∧ u < 0xE000 then .cont Utf8.repl cs3
      else .cont (Char.ofNat u) cs3
    | _, _, _, _ => .fail
  | _ => .fail

/-- Step after a backslash inside a string literal. -/
def escStep : List Char → StrStep
  | [] => .fail
  | e :: cs2 =>
    if e.toNat = 34 then .cont (Char.ofNat 34) cs2
    else if e.toNat = 92 then .cont (Char.ofNat 92) cs2
    else if e.toNat = 47 then .cont (Char.ofNat 47) cs2
    else if e.toNat = 98 then .cont (Char.ofNat 8) cs2
    else if e.toNat = 102 then .cont (Char.ofNat 12) cs2
    else if e.toNat = 110 then .cont (Char.ofNat 10) cs2
    else if e.toNat = 114 then .cont (Char.ofNat 13) cs2
    else if e.toNat = 116 then .cont (Char.ofNat 9) cs2
    else if e.toNat = 117 then uStep cs2
    else .fail

/-- Single-character step of the string-literal parser after the opening
quote: the closing quote, an escape, a literal character; raw control
characters are rejected. -/
def strStep : List Char → StrStep
  | [] => .fail
  | c :: cs =>
    if c.toNat = 34 then .done cs
    else if c.toNat = 92 then escStep cs
    else if c.toNat < 32 then .fail
    else .cont c cs

/-- Fuel-driven iteration of `strStep`; every continuing step consumes at
least one input character, so the fuel `parseStringBody` supplies (input
length plus one) can never run out before the closing quote or a syntax
error is reached. -/
def parseStringBodyF : Nat → List Char → Option (List Char × List Char)
  | 0, _ => none
  | fuel + 1, l =>
    match strStep l with
    | .done rest => some ([], rest)
    | .cont ch rest => (parseStringBodyF fuel rest).map (fun p => (ch :: p.1, p.2))
    | .fail => none

/-- Body of a JSON string literal after the opening quote, up to and
including the closing quote, driven by `strStep`. -/
def parseStringBody (l : List Char) : Option (List Char × List Char) :=
  parseStringBodyF (l.length + 1) l

def spanDigits : List Char → List Char × List Char
  | [] => ([], [])
  | c :: cs =>
    if isDigit c then
      let p := spanDigits cs
      (c :: p.1, p.2)
    else ([], c :: cs)

def digitsVal (ds : List Char) : Nat :=
  ds.foldl (fun a c => a * 10 + (c.toNat - 48)) 0

/-- Unsigned integer part of a JSON number. Rejects a leading zero followed
by more digits, and rejects fraction or exponent forms (outside the integer
model). -/
def parseIntPart (l : List Char) : Option (Nat × List Char) :=
  let ds := (spanDigits l).1
  let r := (spanDigits l).2
  if ds.isEmpty then none
  else if 1 < ds.length ∧ ds.head? = some (Char.ofNat 48) then none
  else if (r.head?.map (fun c => decide (c.toNat = 46 ∨ c.toNat = 101 ∨ c.toNat = 69))).getD
      false then
    none
  else some (digitsVal ds, r)

def parseNumber : List Char → Option (Int × List Char)
  | [] => none
  | c :: cs =>
    if c.toNat = 45 then (parseIntPart cs).map (fun p => (-(p.1 : Int), p.2))
    else (parseIntPart (c :: cs)).map (fun p => ((p.1 : Int), p.2))

/-- Expect a literal tail (after the dispatching first character). -/
def expectTail (pat : List Char) (l : List Char) : Option (List Char) :=
  if pat.isPrefixOf l then some (l.drop pat.length) else none

mutual

/-- Dispatch on the first non-whitespace character of a JSON value. -/
def parseValCore (fuel : Nat) (c : Char) (cs : List Char) : Option (Json × List Char) :=
  if c.toNat = 110 then (expectTail "ull".data cs).map (fun r => (Json.null, r))
  else if c.toNat = 116 then (expectTail "rue".data cs).map (fun r => (Json.bool true, r))
  else if c.toNat = 102 then (expectTail "alse".data cs).map (fun r => (Json.bool false, r))
  else if c.toNat = 34 then
    (parseStringBody cs).map (fun p => (Json.str (String.mk p.1), p.2))
  else if c.toNat = 45 ∨ isDigit c then
    (parseNumber (c :: cs)).map (fun p => (Json.num p.1, p.2))
  else if c.toNat = 91 then
    match skipWs cs with
    | d :: ds =>
      if d.toNat = 93 then some (Json.arr [], ds)
      else (parseElems fuel (d :: ds)).map (fun p => (Json.arr p.1, p.2))
    | [] => none
  else if c.toNat = 123 then
    match skipWs cs with
    | d :: ds =>
      if d.toNat = 125 then some (Json.obj [], ds)
      else (parseMembers fuel (d :: ds)).map (fun p => (Json.obj p.1, p.2))
    | [] => none
  else none

/-- Recursive-descent JSON value parser; the fuel argument strictly
decreases on every recursive call and bounds the nesting and element count,
`jsonParse` supplies more than enough. -/
def parseVal : Nat → List Char → Option (Json × List Char)
  | 0, _ => none
  | fuel + 1, l =>
    match skipWs l with
    | [] => none
    | c :: cs => parseValCore fuel c cs

/-- Non-empty array elements, consuming the closing bracket. -/
def parseElems : Nat → List Char → Option (List Json × List Char)
  | 0, _ => none
  | fuel + 1, l =>
    match parseVal fuel l with
    | none => none
    | some (v, r) =>
      match skipWs r with
      | c :: cs =>
        if c.toNat = 44 then (parseElems fuel cs).map (fun p => (v :: p.1, p.2))
        else if c.toNat = 93 then some ([v], cs)
        else none
      | [] => none

/-- Member parsing after the key string and the colon have been consumed:
parse the value, then a comma and further members or the closing brace. -/
def parseMembersAfter (fuel : Nat) (k : List Char) (ds : List Char) :
    Option (List (String × Json) × List Char) :=
  match parseVal fuel ds with
  | none => none
  | some (v, r2) =>
    match skipWs r2 with
    | e :: es =>
      if e.toNat = 44 then
        (parseMembers fuel es).map (fun p => ((String.mk k, v) :: p.1, p.2))
      else if e.toNat = 125 then some ([(String.mk k, v)], es)
      else none
    | [] => none

/-- One object member: key string, colon, then `parseMembersAfter`. -/
def parseMembersCore (fuel : Nat) (c : Char) (cs : List Char) :
    Option (List (String × Json) × List Char) :=
  if c.toNat = 34 then
    match parseStringBody cs with
    | none => none
    | some (k, r1) =>
      match skipWs r1 with
      | d :: ds => if d.toNat = 58 then parseMembersAfter fuel k ds else none
      | [] => none
  else none

/-- Non-empty object members, consuming the closing brace. -/
def parseMembers : Nat → List Char → Option (List (String × Json) × List Char)
  | 0, _ => none
  | fuel + 1, l =>
    match skipWs l with
    | c :: cs => parseMembersCore fuel c cs
    | [] => none

end

/-- Model of `JSON.parse`: parse one value and require only whitespace to
remain; any failure models the thrown `SyntaxError`. -/
def jsonParse (l : List Char) : Option Json :=
  match parseVal (l.length + 1) l with
  | some (j, rest) => if skipWs rest = [] then some j else none
  | none => none

end Js

/-! ## JSON round-trip lemmas -/

namespace Js.RT

theorem char_eq_of_toNat {c : Char} {n : Nat} (h : c.toNat = n) : Char.ofNat n = c := by
  rw [← h]
  exact Char.ofNat_toNat c

theorem hexVal_hexDigit : ∀ v, v < 16 → hexVal (hexDigit v) = some v := by decide

theorem strStep_closing (rest : List Char) :
    strStep (Char.ofNat 34 :: rest) = .done rest := by
  simp only [strStep]
  rw [if_pos (by decide)]

theorem toNat_ofNat_small {n : Nat} (h : n < 55296) : (Char.ofNat n).toNat = n := by
  have hv : n.isValidChar := Or.inl h
  unfold Char.ofNat
  rw [dif_pos hv]
  rfl

theorem strStep_backslash (cs : List Char) :
    strStep (Char.ofNat 92 :: cs) = escStep cs := by
  simp only [strStep]
  rw [if_neg (by decide), if_pos (by decide)]

theorem strStep_escapeChar (c : Char) (tail : List Char) :
    strStep (escapeChar c ++ tail) = .cont c tail := by
  by_cases h34 : c.toNat = 34
  · have he : escapeChar c = [Char.ofNat 92, Char.ofNat 34] := by
      unfold escapeChar
      rw [if_pos h34]
    rw [he]
    show strStep (Char.ofNat 92 :: Char.ofNat 34 :: tail) = .cont c tail
    rw [strStep_backslash]
    simp only [escStep]
    rw [if_pos (by decide), char_eq_of_toNat h34]
  by_cases h92 : c.toNat = 92
  · have he : escapeChar c = [Char.ofNat 92, Char.ofNat 92] := by
      unfold escapeChar
      rw [if_neg h34, if_pos h92]
    rw [he]
    show strStep (Char.ofNat 92 :: Char.ofNat 92 :: tail) = .cont c tail
    rw [strStep_backslash]
    simp only [escStep]
    rw [if_neg (by decide), if_pos (by decide), char_eq_of_toNat h92]
  by_cases h8 : c.toNat = 8
  · have he : escapeChar c = [Char.ofNat 92, Char.ofNat 98] := by
      unfold escapeChar
      rw [if_neg h34, if_neg h92, if_pos h8]
    rw [he]
    show strStep (Char.ofNat 92 :: Char.ofNat 98 :: tail) = .cont c tail
    rw [strStep_backslash]
    simp only [escStep]
    rw [if_neg (by decide), if_neg (by decide), if_neg (by decide), if_pos (by decide),
      char_eq_of_toNat h8]
  by_cases h9 : c.toNat = 9
  · have he : escapeChar c = [Char.ofNat 92, Char.ofNat 116] := by
      unfold escapeChar
      rw [if_neg h34, if_neg h92, if_neg h8, if_pos h9]
    rw [he]
    show strStep (Char.ofNat 92 :: Char.ofNat 116 :: tail) = .cont c tail
    rw [strStep_backslash]
    simp only [escStep]
    rw [if_neg (by decide), if_neg (by decide), if_neg (by decide), if_neg (by decide),
      if_neg (by decide), if_neg (by decide), if_neg (by decide), if_pos (by decide),
      char_eq_of_toNat h9]
  by_cases h10 : c.toNat = 10
  · have he : escapeChar c = [Char.ofNat 92, Char.ofNat 110] := by
      unfold escapeChar
      rw [if_neg h34, if_neg h92, if_neg h8, if_neg h9, if_pos h10]
    rw [he]
    show strStep (Char.ofNat 92 :: Char.ofNat 110 :: tail) = .cont c tail
    rw [strStep_backslash]
    simp only [escStep]
    rw [if_neg (by decide), if_neg (by decide), if_neg (by decide), if_neg (by decide),
      if_neg (by decide), if_pos (by decide), char_eq_of_toNat h10]
  by_cases h12 : c.toNat = 12
  · have he : escapeChar c = [Char.ofNat 92, Char.ofNat 102] := by
      unfold escapeChar
      rw [if_neg h34, if_neg h92, if_neg h8, if_neg h9, if_neg h10, if_pos h12]
    rw [he]
    show strStep (Char.ofNat 92 :: Char.ofNat 102 :: tail) = .cont c tail
    rw [strStep_backslash]
    simp only [escStep]
    rw [if_neg (by decide), if_neg (by decide), if_neg (by decide), if_neg (by decide),
      if_pos (by decide), char_eq_of_toNat h12]
  by_cases h13 : c.toNat = 13
  · have he : escapeChar c = [Char.ofNat 92, Char.ofNat 114] := by
      unfold escapeChar
      rw [if_neg h34, if_neg h92, if_neg h8, if_neg h9, if_neg h10, if_neg h12, if_pos h13]
    rw [he]
    show strStep (Char.ofNat 92 :: Char.ofNat 114 :: tail) = .cont c tail
    rw [strStep_backslash]
    simp only [escStep]
    rw [if_neg (by decide), if_neg (by decide), if_neg (by decide), if_neg (by decide),
      if_neg (by decide), if_neg (by decide), if_pos (by decide), char_eq_of_toNat h13]
  by_cases hctl : c.toNat < 32
  · have he : escapeChar c = [Char.ofNat 92, Char.ofNat 117, Char.ofNat 48, Char.ofNat 48,
        hexDigit (c.toNat / 16), hexDigit (c.toNat % 16)] := by
      unfold escapeChar
      rw [if_neg h34, if_neg h92, if_neg h8, if_neg h9, if_neg h10, if_neg h12, if_neg h13,
        if_pos hctl]
    rw [he]
    show strStep (Char.ofNat 92 :: Char.ofNat 117 :: Char.ofNat 48 :: Char.ofNat 48 ::
      hexDigit (c.toNat / 16) :: hexDigit (c.toNat % 16) :: tail) = .cont c tail
    rw [strStep_backslash]
    simp only [escStep]
    rw [if_neg (by decide), if_neg (by decide), if_neg (by decide), if_neg (by decide),
      if_neg (by decide), if_neg (by decide), if_neg (by decide), if_neg (by decide),
      if_pos (by decide)]
    simp only [uStep]
    rw [show hexVal (Char.ofNat 48) = some 0 from by decide,
      hexVal_hexDigit _ (show c.toNat / 16 < 16 by omega),
      hexVal_hexDigit _ (show c.toNat % 16 < 16 by omega)]
    simp only
    rw [if_neg (by omega), if_neg (by omega)]
    have e : 0 * 4096 + 0 * 256 + c.toNat / 16 * 16 + c.toNat % 16 = c.toNat := by omega
    rw [e, Char.ofNat_toNat]
  · have he : escapeChar c = [c] := by
      unfold escapeChar
      rw [if_neg h34, if_neg h92, if_neg h8, if_neg h9, if_neg h10, if_neg h12, if_neg h13,
        if_neg hctl]
    rw [he]
    show strStep (c :: tail) = .cont c tail
    simp only [strStep]
    rw [if_neg h34, if_neg h92, if_neg hctl]

theorem parseStringBodyF_escList :
    ∀ (cs : List Char) (fuel : Nat) (rest : List Char), cs.length < fuel →
      parseStringBodyF fuel (escList cs ++ (Char.ofNat 34 :: rest)) = some (cs, rest) := by
  intro cs
  induction cs with
  | nil =>
    intro fuel rest hf
    obtain ⟨f, rfl⟩ : ∃ f, fuel = f + 1 := ⟨fuel - 1, by omega⟩
    show parseStringBodyF (f + 1) (Char.ofNat 34 :: rest) = some ([], rest)
    rw [parseStringBodyF, strStep_closing]
  | cons c cs ih =>
    intro fuel rest hf
    obtain ⟨f, rfl⟩ : ∃ f, fuel = f + 1 := ⟨fuel - 1, by omega⟩
    show parseStringBodyF (f + 1) (escapeChar c ++ escList cs ++ (Char.ofNat 34 :: rest))
      = some (c :: cs, rest)
    rw [List.append_assoc, parseStringBodyF, strStep_escapeChar]
    show (parseStringBodyF f (escList cs ++ (Char.ofNat 34 :: rest))).map
      (fun p => (c :: p.1, p.2)) = some (c :: cs, rest)
    rw [ih f rest (by simpa using Nat.lt_of_succ_lt_succ hf)]
    rfl

theorem escList_length_ge : ∀ (cs : List Char), cs.length ≤ (escList cs).length := by
  intro cs
  induction cs with
  | nil => simp [escList]
  | cons c cs ih =>
    show cs.length + 1 ≤ (escapeChar c ++ escList cs).length
    rw [List.length_append]
    have : 1 ≤ (escapeChar c).length := by
      unfold escapeChar
      repeat' split
      all_goals simp
    omega

theorem parseStringBody_escList (cs rest : List Char) :
    parseStringBody (escList cs ++ (Char.ofNat 34 :: rest)) = some (cs, rest) := by
  unfold parseStringBody
  apply parseStringBodyF_escList
  have := escList_length_ge cs
  rw [List.length_append]
  simp only [List.length_cons]
  omega

end Js.RT

namespace Js.RT

theorem natDigits_digits : ∀ n, ∀ c ∈ natDigits n, 48 ≤ c.toNat ∧ c.toNat ≤ 57 := by
  intro n
  induction n using natDigits.induct with
  | case1 n h =>
    intro c hc
    rw [natDigits, if_pos h] at hc
    simp only [List.mem_singleton] at hc
    subst hc
    rw [toNat_ofNat_small (by omega)]
    omega
  | case2 n h ih =>
    intro c hc
    rw [natDigits, if_neg h] at hc
    simp only [List.mem_append, List.mem_singleton] at hc
    rcases hc with hc | hc
    · exact ih c hc
    · subst hc
      rw [toNat_ofNat_small (by omega)]
      omega

theorem natDigits_ne_nil (n : Nat) : natDigits n ≠ [] := by
  rw [natDigits]
  split <;> simp

theorem natDigits_head_pos :
    ∀ n, 1 ≤ n → ∀ d ds, natDigits n = d :: ds → d.toNat ≠ 48 := by
  intro n
  induction n using natDigits.induct with
  | case1 n h =>
    intro h1 d ds hd
    rw [natDigits, if_pos h] at hd
    simp only [List.cons.injEq] at hd
    rw [← hd.1, toNat_ofNat_small (by omega)]
    omega
  | case2 n h ih =>
    intro h1 d ds hd
    rw [natDigits, if_neg h] at hd
    obtain ⟨d', ds', e⟩ := List.exists_cons_of_ne_nil (natDigits_ne_nil (n / 10))
    rw [e] at hd
    simp only [List.cons_append, List.cons.injEq] at hd
    exact hd.1 ▸ ih (by omega) d' ds' e

theorem digitsVal_natDigits : ∀ n, digitsVal (natDigits n) = n := by
  intro n
  induction n using natDigits.induct with
  | case1 n h =>
    rw [natDigits, if_pos h]
    show (0 * 10 + ((Char.ofNat (48 + n)).toNat - 48)) = n
    rw [toNat_ofNat_small (by omega)]
    omega
  | case2 n h ih =>
    rw [natDigits, if_neg h]
    unfold digitsVal
    rw [List.foldl_append]
    unfold digitsVal at ih
    rw [ih]
    show n / 10 * 10 + ((Char.ofNat (48 + n % 10)).toNat - 48) = n
    rw [toNat_ofNat_small (by omega)]
    omega

theorem spanDigits_of_digits :
    ∀ (ds rest : List Char), (∀ c ∈ ds, 48 ≤ c.toNat ∧ c.toNat ≤ 57) →
      (∀ c, rest.head? = some c → isDigit c = false) →
      spanDigits (ds ++ rest) = (ds, rest) := by
  intro ds
  induction ds with
  | nil =>
    intro rest _ hrest
    match rest with
    | [] => rfl
    | c :: cs =>
      have := hrest c rfl
      rw [List.nil_append, spanDigits, if_neg (by simp [this])]
  | cons d ds ih =>
    intro rest hds hrest
    have hd := hds d (by simp)
    rw [List.cons_append, spanDigits, if_pos (by simp [isDigit]; omega)]
    rw [ih rest (fun c hc => hds c (by simp [hc])) hrest]

theorem parseIntPart_natDigits (n : Nat) (rest : List Char)
    (hrest : ∀ c, rest.head? = some c → isDigit c = false ∧ c.toNat ≠ 46 ∧ c.toNat ≠ 101 ∧
      c.toNat ≠ 69) :
    parseIntPart (natDigits n ++ rest) = some (n, rest) := by
  have hsp : spanDigits (natDigits n ++ rest) = (natDigits n, rest) :=
    spanDigits_of_digits (natDigits n) rest (natDigits_digits n) (fun c hc => (hrest c hc).1)
  unfold parseIntPart
  rw [hsp]
  simp only
  rw [if_neg (by simp [List.isEmpty_iff, natDigits_ne_nil n])]
  obtain ⟨d, ds, e⟩ := List.exists_cons_of_ne_nil (natDigits_ne_nil n)
  have hlz : ¬(1 < (natDigits n).length ∧ (natDigits n).head? = some (Char.ofNat 48)) := by
    intro hcon
    by_cases hn : n < 10
    · rw [natDigits, if_pos hn] at hcon
      simp at hcon
    · have hd48 := natDigits_head_pos n (by omega) d ds e
      rw [e] at hcon
      simp only [List.head?_cons, Option.some.injEq] at hcon
      apply hd48
      rw [hcon.2]
      decide
  rw [if_neg hlz]
  have hdelim : ((rest.head?.map
      (fun c => decide (c.toNat = 46 ∨ c.toNat = 101 ∨ c.toNat = 69))).getD false) = false := by
    match rest with
    | [] => rfl
    | c :: cs =>
      have := hrest c rfl
      simp only [List.head?_cons, Option.map_some', Option.getD_some,
        decide_eq_false_iff_not, not_or]
      exact ⟨this.2.1, this.2.2.1, this.2.2.2⟩
  rw [if_neg (by rw [hdelim]; simp)]
  rw [digitsVal_natDigits]

theorem parseNumber_natDigits (n : Nat) (rest : List Char)
    (hrest : ∀ c, rest.head? = some c → isDigit c = false ∧ c.toNat ≠ 46 ∧ c.toNat ≠ 101 ∧
      c.toNat ≠ 69) :
    parseNumber (natDigits n ++ rest) = some ((n : Int), rest) := by
  obtain ⟨d, ds, e⟩ := List.exists_cons_of_ne_nil (natDigits_ne_nil n)
  have hd : 48 ≤ d.toNat ∧ d.toNat ≤ 57 := natDigits_digits n d (by rw [e]; simp)
  have hcons : natDigits n ++ rest = d :: (ds ++ rest) := by rw [e]; rfl
  rw [hcons]
  simp only [parseNumber]
  rw [if_neg (by omega)]
  rw [← hcons, parseIntPart_natDigits n rest hrest]
  rfl

end Js.RT

namespace Js.RT

theorem mk_data (s : String) : String.mk s.data = s := by
  cases s
  rfl

theorem skipWs_cons {c : Char} (cs : List Char) (h : isWs c = false) :
    skipWs (c :: cs) = c :: cs := by
  simp only [skipWs]
  rw [if_neg (by simp [h])]

theorem parseVal_succ (fuel : Nat) {l : List Char} {c : Char} {cs : List Char}
    (h : skipWs l = c :: cs) : parseVal (fuel + 1) l = parseValCore fuel c cs := by
  simp only [parseVal]
  rw [h]

theorem parseMembers_succ (fuel : Nat) {l : List Char} {c : Char} {cs : List Char}
    (h : skipWs l = c :: cs) : parseMembers (fuel + 1) l = parseMembersCore fuel c cs := by
  simp only [parseMembers]
  rw [h]

/-- Values appearing in a gateway state blob: strings and (nonnegative
integer) timestamps. -/
def GoodVal (v : Json) : Prop :=
  (∃ s, v = Json.str s) ∨ (∃ m : Nat, v = Json.num (m : Int))

theorem parseValCore_str (fuel : Nat) (s : String) (rest : List Char) :
    parseValCore fuel (Char.ofNat 34) (escList s.data ++ (Char.ofNat 34 :: rest)) =
      some (Json.str s, rest) := by
  unfold parseValCore
  rw [if_neg (by decide), if_neg (by decide), if_neg (by decide), if_pos (by decide)]
  rw [parseStringBody_escList]
  simp only [Option.map_some']

theorem parseVal_good (g : Nat) (v : Json) (hv : GoodVal v) (z : List Char)
    (hz : ∀ c, z.head? = some c → c.toNat = 44 ∨ c.toNat = 125) :
    parseVal (g + 1) (stringify v ++ z) = some (v, z) := by
  rcases hv with ⟨s, rfl⟩ | ⟨m, rfl⟩
  · have he : stringify (Json.str s) ++ z =
        Char.ofNat 34 :: (escList s.data ++ (Char.ofNat 34 :: z)) := by
      show quoteStr s ++ z = _
      unfold quoteStr
      simp [List.append_assoc]
    rw [he, parseVal_succ g (skipWs_cons _ (by decide)), parseValCore_str]
  · have hnum : stringify (Json.num (m : Int)) = natDigits m := by
      show intDigits (m : Int) = natDigits m
      unfold intDigits
      rw [if_neg (by omega)]
      norm_num
    obtain ⟨d, ds, e⟩ := List.exists_cons_of_ne_nil (natDigits_ne_nil m)
    have hd : 48 ≤ d.toNat ∧ d.toNat ≤ 57 := natDigits_digits m d (by rw [e]; simp)
    have he : stringify (Json.num (m : Int)) ++ z = d :: (ds ++ z) := by
      rw [hnum, e]
      rfl
    rw [he, parseVal_succ g (skipWs_cons _ (by simp [isWs]; omega))]
    unfold parseValCore
    rw [if_neg (by omega), if_neg (by omega), if_neg (by omega), if_neg (by omega),
      if_pos (Or.inr (by simp [isDigit]; omega))]
    have : d :: (ds ++ z) = natDigits m ++ z := by rw [e]; rfl
    rw [this, parseNumber_natDigits m z (by
      intro c hc
      have := hz c hc
      constructor
      · simp [isDigit]; omega
      · omega)]
    rfl

theorem stringify_good_ne_nil (v : Json) (hv : GoodVal v) : stringify v ≠ [] := by
  rcases hv with ⟨s, rfl⟩ | ⟨m, rfl⟩
  · show quoteStr s ≠ []
    unfold quoteStr
    simp
  · show intDigits (m : Int) ≠ []
    unfold intDigits
    rw [if_neg (by omega)]
    norm_num
    exact natDigits_ne_nil m

theorem parseMembers_fields :
    ∀ (fields : List (String × Json)) (fuel : Nat) (rest : List Char),
      fields ≠ [] → (∀ f ∈ fields, GoodVal f.2) → 2 * fields.length ≤ fuel →
      parseMembers fuel (stringifyFields fields ++ (Char.ofNat 125 :: rest)) =
        some (fields, rest) := by
  intro fields
  induction fields with
  | nil => intro fuel rest h; exact absurd rfl h
  | cons kv fields ih =>
    intro fuel rest _ hgood hfuel
    obtain ⟨k, v⟩ := kv
    obtain ⟨f, rfl⟩ : ∃ f, fuel = f + 1 := ⟨fuel - 1, by simp at hfuel ⊢; omega⟩
    obtain ⟨g, rfl⟩ : ∃ g, f = g + 1 := ⟨f - 1, by simp at hfuel ⊢; omega⟩
    have hv : GoodVal v := hgood (k, v) (by simp)
    cases fields with
    | nil =>
      have he : stringifyFields [(k, v)] ++ (Char.ofNat 125 :: rest) =
          Char.ofNat 34 :: (escList k.data ++ (Char.ofNat 34 ::
            (Char.ofNat 58 :: (stringify v ++ (Char.ofNat 125 :: rest))))) := by
        show (quoteStr k ++ Char.ofNat 58 :: stringify v) ++ (Char.ofNat 125 :: rest) = _
        unfold quoteStr
        simp [List.append_assoc]
      rw [he, parseMembers_succ (g + 1) (skipWs_cons _ (by decide))]
      unfold parseMembersCore
      rw [if_pos (by decide), parseStringBody_escList]
      show (match skipWs (Char.ofNat 58 :: (stringify v ++ (Char.ofNat 125 :: rest))) with
        | d :: ds =>
          if d.toNat = 58 then parseMembersAfter (g + 1) k.data ds else none
        | [] => none) = some ([(k, v)], rest)
      rw [skipWs_cons _ (by decide)]
      show (if (Char.ofNat 58).toNat = 58 then
          parseMembersAfter (g + 1) k.data (stringify v ++ (Char.ofNat 125 :: rest))
        else none) = some ([(k, v)], rest)
      rw [if_pos (by decide)]
      unfold parseMembersAfter
      rw [parseVal_good g v hv _ (by intro c hc; simp at hc; right; rw [← hc]; decide)]
      show (match skipWs (Char.ofNat 125 :: rest) with
        | e :: es =>
          if e.toNat = 44 then
            (parseMembers (g + 1) es).map (fun p => ((String.mk k.data, v) :: p.1, p.2))
          else if e.toNat = 125 then some ([(String.mk k.data, v)], es)
          else none
        | [] => none) = some ([(k, v)], rest)
      rw [skipWs_cons _ (by decide)]
      show (if (Char.ofNat 125).toNat = 44 then
          (parseMembers (g + 1) rest).map (fun p => ((String.mk k.data, v) :: p.1, p.2))
        else if (Char.ofNat 125).toNat = 125 then some ([(String.mk k.data, v)], rest)
        else none) = some ([(k, v)], rest)
      rw [if_neg (by decide), if_pos (by decide), mk_data]
    | cons kv2 fields2 =>
      have he : stringifyFields ((k, v) :: kv2 :: fields2) ++ (Char.ofNat 125 :: rest) =
          Char.ofNat 34 :: (escList k.data ++ (Char.ofNat 34 ::
            (Char.ofNat 58 :: (stringify v ++ (Char.ofNat 44 ::
              (stringifyFields (kv2 :: fields2) ++ (Char.ofNat 125 :: rest))))))) := by
        show (quoteStr k ++ Char.ofNat 58 :: stringify v ++ Char.ofNat 44 ::
          stringifyFields (kv2 :: fields2)) ++ (Char.ofNat 125 :: rest) = _
        unfold quoteStr
        simp [List.append_assoc]
      rw [he, parseMembers_succ (g + 1) (skipWs_cons _ (by decide))]
      unfold parseMembersCore
      rw [if_pos (by decide), parseStringBody_escList]
      show (match skipWs (Char.ofNat 58 :: (stringify v ++ (Char.ofNat 44 ::
          (stringifyFields (kv2 :: fields2) ++ (Char.ofNat 125 :: rest))))) with
        | d :: ds =>
          if d.toNat = 58 then parseMembersAfter (g + 1) k.data ds else none
        | [] => none) = some ((k, v) :: kv2 :: fields2, rest)
      rw [skipWs_cons _ (by decide)]
      show (if (Char.ofNat 58).toNat = 58 then
          parseMembersAfter (g + 1) k.data (stringify v ++ (Char.ofNat 44 ::
            (stringifyFields (kv2 :: fields2) ++ (Char.ofNat 125 :: rest))))
        else none) = some ((k, v) :: kv2 :: fields2, rest)
      rw [if_pos (by decide)]
      unfold parseMembersAfter
      rw [parseVal_good g v hv _ (by intro c hc; simp at hc; left; rw [← hc]; decide)]
      show (match skipWs (Char.ofNat 44 ::
          (stringifyFields (kv2 :: fields2) ++ (Char.ofNat 125 :: rest))) with
        | e :: es =>
          if e.toNat = 44 then
            (parseMembers (g + 1) es).map (fun p => ((String.mk k.data, v) :: p.1, p.2))
          else if e.toNat = 125 then some ([(String.mk k.data, v)], es)
          else none
        | [] => none) = some ((k, v) :: kv2 :: fields2, rest)
      rw [skipWs_cons _ (by decide)]
      show (if (Char.ofNat 44).toNat = 44 then
          (parseMembers (g + 1) (stringifyFields (kv2 :: fields2) ++
            (Char.ofNat 125 :: rest))).map (fun p => ((String.mk k.data, v) :: p.1, p.2))
        else if (Char.ofNat 44).toNat = 125 then
          some ([(String.mk k.data, v)], stringifyFields (kv2 :: fields2) ++
            (Char.ofNat 125 :: rest))
        else none) = some ((k, v) :: kv2 :: fields2, rest)
      rw [if_pos (by decide)]
      rw [ih (g + 1) rest (by simp) (fun f hf => hgood f (by simp [hf]))
        (by simp at hfuel ⊢; omega)]
      simp only [Option.map_some']

end Js.RT

namespace Js.RT

theorem parseVal_obj (fuel : Nat) (fields : List (String × Json)) (rest : List Char)
    (hne : fields ≠ []) (hgood : ∀ f ∈ fields, GoodVal f.2)
    (hfuel : 2 * fields.length ≤ fuel) :
    parseVal (fuel + 1) (stringify (Json.obj fields) ++ rest) =
      some (Json.obj fields, rest) := by
  have he : stringify (Json.obj fields) ++ rest =
      Char.ofNat 123 :: (stringifyFields fields ++ (Char.ofNat 125 :: rest)) := by
    show (Char.ofNat 123 :: (stringifyFields fields ++ [Char.ofNat 125])) ++ rest = _
    simp [List.append_assoc]
  rw [he, parseVal_succ fuel (skipWs_cons _ (by decide))]
  unfold parseValCore
  rw [if_neg (by decide), if_neg (by decide), if_neg (by decide), if_neg (by decide),
    if_neg (by decide), if_neg (by decide), if_pos (by decide)]
  obtain ⟨⟨k, v⟩, fields2, rfl⟩ : ∃ kv fs, fields = kv :: fs := by
    match fields, hne with
    | kv :: fs, _ => exact ⟨kv, fs, rfl⟩
  obtain ⟨T, hT⟩ : ∃ T, stringifyFields ((k, v) :: fields2) = Char.ofNat 34 :: T := by
    cases fields2 with
    | nil =>
      refine ⟨(escList k.data ++ [Char.ofNat 34]) ++ Char.ofNat 58 :: stringify v, ?_⟩
      show quoteStr k ++ Char.ofNat 58 :: stringify v = _
      unfold quoteStr
      simp
    | cons kv2 fs2 =>
      refine ⟨(escList k.data ++ [Char.ofNat 34]) ++ Char.ofNat 58 :: stringify v ++
        Char.ofNat 44 :: stringifyFields (kv2 :: fs2), ?_⟩
      show quoteStr k ++ Char.ofNat 58 :: stringify v ++ Char.ofNat 44 ::
        stringifyFields (kv2 :: fs2) = _
      unfold quoteStr
      simp
  have hhead : stringifyFields ((k, v) :: fields2) ++ (Char.ofNat 125 :: rest) =
      Char.ofNat 34 :: (T ++ (Char.ofNat 125 :: rest)) := by
    rw [hT]
    rfl
  rw [hhead, skipWs_cons _ (by decide)]
  show (if (Char.ofNat 34).toNat = 125 then
      some (Json.obj [], T ++ (Char.ofNat 125 :: rest))
    else (parseMembers fuel (Char.ofNat 34 :: (T ++
      (Char.ofNat 125 :: rest)))).map (fun p => (Json.obj p.1, p.2)))
    = some (Json.obj ((k, v) :: fields2), rest)
  rw [if_neg (by decide), ← hhead,
    parseMembers_fields ((k, v) :: fields2) fuel rest (by simp) hgood hfuel]
  rfl

theorem stringifyFields_length_ge :
    ∀ (fields : List (String × Json)), (∀ f ∈ fields, GoodVal f.2) →
      2 * fields.length ≤ (stringifyFields fields).length := by
  intro fields
  induction fields with
  | nil => simp [stringifyFields]
  | cons kv fields ih =>
    intro hgood
    obtain ⟨k, v⟩ := kv
    have hv : stringify v ≠ [] := stringify_good_ne_nil v (hgood (k, v) (by simp))
    have hv1 : 1 ≤ (stringify v).length := by
      cases he : stringify v with
      | nil => exact absurd he hv
      | cons a b => simp
    cases fields with
    | nil =>
      show 2 * 1 ≤ ((quoteStr k ++ Char.ofNat 58 :: stringify v)).length
      unfold quoteStr
      simp
      omega
    | cons kv2 fs2 =>
      have := ih (fun f hf => hgood f (by simp [hf]))
      show 2 * (fs2.length + 1 + 1) ≤ ((quoteStr k ++ Char.ofNat 58 :: stringify v ++
        Char.ofNat 44 :: stringifyFields (kv2 :: fs2))).length
      unfold quoteStr
      simp at this ⊢
      omega

theorem jsonParse_stringify_obj (fields : List (String × Json)) (hne : fields ≠ [])
    (hgood : ∀ f ∈ fields, GoodVal f.2) :
    jsonParse (stringify (Json.obj fields)) = some (Json.obj fields) := by
  unfold jsonParse
  obtain ⟨L, hL⟩ : ∃ L, (stringify (Json.obj fields)).length = L + 1 := by
    refine ⟨(stringify (Json.obj fields)).length - 1, ?_⟩
    have : (stringify (Json.obj fields)).length =
        (stringifyFields fields).length + 2 := by
      show (Char.ofNat 123 :: (stringifyFields fields ++ [Char.ofNat 125])).length = _
      simp
    omega
  rw [hL]
  have hfuel : 2 * fields.length ≤ L + 1 := by
    have h1 := stringifyFields_length_ge fields hgood
    have : (stringify (Json.obj fields)).length = (stringifyFields fields).length + 2 := by
      show (Char.ofNat 123 :: (stringifyFields fields ++ [Char.ofNat 125])).length = _
      simp
    omega
  have := parseVal_obj (L + 1) fields [] hne hgood hfuel
  rw [List.append_nil] at this
  rw [this]
  rfl

end Js.RT

/-! ## TokenCacheManager (src/utils/tokenCacheManager.ts)

The in-memory `Map<string, CacheItem<any>>` is modelled as an association
list with unique keys; `Map.get` is the first (only) binding, `Map.delete`
removes the binding. Times: `Date.now()` is the parameter `nowMs`
(milliseconds); the code derives seconds as `Math.floor(nowMs / 1000)`.
JavaScript truthiness: a string field is truthy iff `≠ ""`, a numeric unix
timestamp iff `≠ 0` (the interfaces declare the fields as `number`/`string`;
an absent value is falsy exactly like `0`/`""`). -/

namespace TokenCacheManager

/-- UserTokenInfo of `tokenCacheManager.ts` (plus `client_id`/`client_secret`:
the spec's `issuedClientId`/`issuedClientSecret`, read by
`feishuAuthService.ts` and `tokenRefreshManager.ts` from the records stored
by the duplicated cache-manager variant referenced by their imports). -/
structure UserTokenInfo where
  token_type : String := ""
  access_token : String := ""
  refresh_token : String := ""
  scope : String := ""
  code : Nat := 0
  expires_at : Nat := 0
  refresh_token_expires_at : Nat := 0
  generated_token : String := ""
  client_id : String := ""
  client_secret : String := ""
deriving DecidableEq, Repr

/-- TenantTokenInfo of `tokenCacheManager.ts`. -/
structure TenantTokenInfo where
  app_access_token : String := ""
  expires_at : Nat := 0
deriving DecidableEq, Repr

/-- The single shared `Map` stores both record kinds, distinguished by key
namespace. -/
inductive TokenData where
  | user (u : UserTokenInfo)
  | tenant (t : TenantTokenInfo)
deriving DecidableEq, Repr

/-- CacheItem of `tokenCacheManager.ts` (`expiresAt` in milliseconds). -/
structure CacheItem where
  data : TokenData
  timestamp : Nat
  expiresAt : Nat
deriving DecidableEq, Repr

abbrev Cache := List (String × CacheItem)

/-- JavaScript `String.prototype.startsWith`, embedded over characters. -/
def strStartsWith (s p : String) : Bool := decide (p.data <+: s.data)

def userNs : String := "user_access_token:"

def tenantNs : String := "tenant_access_token:"

def cacheGet (c : Cache) (k : String) : Option CacheItem := List.lookup k c

def cacheDelete (c : Cache) (k : String) : Cache := c.filter (fun e => e.1 ≠ k)

/-- Map.set: insert or replace the binding. -/
def cacheSet (c : Cache) (k : String) (v : CacheItem) : Cache :=
  (k, v) :: cacheDelete c k

/-- The unchecked TypeScript cast `cacheItem.data as UserTokenInfo`: reading
a tenant record through the user interface yields `undefined` fields, which
behave like the falsy defaults. -/
def asUser : TokenData → UserTokenInfo
  | .user u => u
  | .tenant _ => {}

/-- TokenStatus of `tokenCacheManager.ts`. -/
structure TokenStatus where
  isValid : Bool
  isExpired : Bool
  canRefresh : Bool
  shouldRefresh : Bool
deriving DecidableEq, Repr

/-- `getUserTokenInfo` (lines 143-175): returns the record and the possibly
mutated cache. A record holding a refresh token is dropped once the refresh
token has expired; a record without one is dropped once the cache entry
itself has expired. -/
def getUserTokenInfo (c : Cache) (key : String) (nowMs : Nat) :
    Option UserTokenInfo × Cache :=
  let cacheKey := userNs ++ key
  match cacheGet c cacheKey with
  | none => (none, c)
  | some item =>
    let tokenInfo := asUser item.data
    let now := nowMs / 1000
    if tokenInfo.refresh_token ≠ "" ∧ tokenInfo.refresh_token_expires_at ≠ 0 then
      if tokenInfo.refresh_token_expires_at < now then
        (none, cacheDelete c cacheKey)
      else (some tokenInfo, c)
    else
      if item.expiresAt < nowMs then (none, cacheDelete c cacheKey)
      else (some tokenInfo, c)

/-- `getUserToken` (lines 182-185). -/
def getUserToken (c : Cache) (key : String) (nowMs : Nat) : Option String × Cache :=
  let r := getUserTokenInfo c key nowMs
  (r.1.map (fun ti => ti.access_token), r.2)

/-- The unchecked cast `cacheItem.data as TenantTokenInfo`. -/
def asTenant : TokenData → TenantTokenInfo
  | .tenant t => t
  | .user _ => {}

/-- `getTenantTokenInfo` (lines 192-211). -/
def getTenantTokenInfo (c : Cache) (key : String) (nowMs : Nat) :
    Option TenantTokenInfo × Cache :=
  let cacheKey := tenantNs ++ key
  match cacheGet c cacheKey with
  | none => (none, c)
  | some item =>
    if item.expiresAt < nowMs then (none, cacheDelete c cacheKey)
    else (some (asTenant item.data), c)

/-- `checkUserTokenStatus` (lines 316-348), status computation on a record
the lookup returned. -/
def checkUserTokenStatusCore (u : UserTokenInfo) (now : Nat) : TokenStatus :=
  let isExpired := u.expires_at ≠ 0 ∧ u.expires_at < now
  let timeToExpiry := if u.expires_at ≠ 0 then u.expires_at - now else 0
  let canRefresh := u.refresh_token ≠ "" ∧ u.refresh_token_expires_at ≠ 0 ∧
    u.refresh_token_expires_at > now
  let shouldRefresh := timeToExpiry > 0 ∧ timeToExpiry < 300 ∧ canRefresh
  { isValid := decide ¬isExpired
    isExpired := decide isExpired
    canRefresh := decide canRefresh
    shouldRefresh := decide shouldRefresh }

/-- `checkUserTokenStatus` (lines 316-348). -/
def checkUserTokenStatus (c : Cache) (key : String) (nowMs : Nat) : TokenStatus × Cache :=
  match getUserTokenInfo c key nowMs with
  | (none, c1) =>
    ({ isValid := false, isExpired := true, canRefresh := false, shouldRefresh := false }, c1)
  | (some u, c1) => (checkUserTokenStatusCore u (nowMs / 1000), c1)

/-- `cacheUserToken` (lines 230-268): the cache-entry expiry prefers the
refresh-token expiry, then the access-token expiry, then a 2-hour default;
`customTtl` (seconds) overrides. -/
def cacheUserToken (c : Cache) (key : String) (tokenInfo : UserTokenInfo)
    (customTtl : Option Nat) (nowMs : Nat) : Cache :=
  let cacheKey := userNs ++ key
  let expiresAt :=
    match customTtl with
    | some ttl => if ttl ≠ 0 then nowMs + ttl * 1000 else expiresAtNoTtl tokenInfo nowMs
    | none => expiresAtNoTtl tokenInfo nowMs
  cacheSet c cacheKey { data := .user tokenInfo, timestamp := nowMs, expiresAt := expiresAt }
where
  expiresAtNoTtl (tokenInfo : UserTokenInfo) (nowMs : Nat) : Nat :=
    if tokenInfo.refresh_token_expires_at ≠ 0 then tokenInfo.refresh_token_expires_at * 1000
    else if tokenInfo.expires_at ≠ 0 then tokenInfo.expires_at * 1000
    else nowMs + 2 * 60 * 60 * 1000

/-- `removeUserToken` (lines 387-397). -/
def removeUserToken (c : Cache) (key : String) : Cache :=
  cacheDelete c (userNs ++ key)

/-- `generateClientKey` (lines 501-506): plaintext concatenation — the
SHA-256 hashing line is commented out in the source. -/
def generateClientKey (clientId clientSecret : String) (userKey : Option String) : String :=
  let userPart := match userKey with
    | some u => if u ≠ "" then ":" ++ u else ""
    | none => ""
  clientId ++ ":" ++ clientSecret ++ userPart

/-- Eviction decision of `cleanExpiredTokens` (lines 563-615) for one cache
entry: a user-namespace record holding a refresh token with a refresh-expiry
timestamp is evicted iff the refresh token has expired (seconds clock);
every other entry is evicted iff the cache entry itself has expired
(milliseconds clock). -/
def shouldDeleteEntry (nowMs : Nat) (e : String × CacheItem) : Bool :=
  if strStartsWith e.1 userNs then
    let u := asUser e.2.data
    if u.refresh_token ≠ "" ∧ u.refresh_token_expires_at ≠ 0 then
      u.refresh_token_expires_at < nowMs / 1000
    else e.2.expiresAt ≤ nowMs
  else e.2.expiresAt ≤ nowMs

/-- `cleanExpiredTokens` (lines 563-615): the periodic sweep. -/
def cleanExpiredTokens (c : Cache) (nowMs : Nat) : Cache :=
  c.filter (fun e => ¬ shouldDeleteEntry nowMs e)

end TokenCacheManager

/-! ## Config, AuthUtils (src/utils/auth/authUtils.ts) and the helpers of
src/utils/auth.ts -/

/-- The `feishu` section of `Config` consumed by the authentication layer. -/
structure FeishuConfig where
  appId : String
  appSecret : String
  authType : String
deriving DecidableEq, Repr

namespace AuthUtils

/-- `AuthUtils.generateClientKey` (authUtils.ts lines 16-26). The source
string is hashed with SHA-256; every claim about this function depends only
on the hash being applied as a function, so the hash is a parameter. -/
def generateClientKey (hash : String → String) (cfg : FeishuConfig)
    (userKey : Option String) : String :=
  let userPart := match userKey with
    | some u => if u ≠ "" then ":" ++ u else ""
    | none => ""
  let source :=
    if cfg.authType = "tenant" then cfg.appId ++ ":" ++ cfg.appSecret
    else cfg.appId ++ ":" ++ cfg.appSecret ++ userPart
  hash source

/-- The object serialized by `AuthUtils.encodeState` (authUtils.ts lines
52-61); `redirectUri: undefined` is omitted by `JSON.stringify`, and
`timestamp` is `AuthUtils.timestamp()`, the current unix second. -/
def stateJson (appId appSecret clientKey : String) (redirectUri : Option String)
    (ts : Nat) : Js.Json :=
  Js.Json.obj
    ([("appId", Js.Json.str appId), ("appSecret", Js.Json.str appSecret),
      ("clientKey", Js.Json.str clientKey)] ++
     (match redirectUri with
      | some r => [("redirectUri", Js.Json.str r)]
      | none => []) ++
     [("timestamp", Js.Json.num (ts : Int))])

/-- `AuthUtils.encodeState`: `Buffer.from(JSON.stringify(stateData))
.toString('base64')`. -/
def encodeState (appId appSecret clientKey : String) (redirectUri : Option String)
    (ts : Nat) : String :=
  String.mk (B64.encode (Utf8.encodeList
    (Js.stringify (stateJson appId appSecret clientKey redirectUri ts))))

/-- Body of `AuthUtils.decodeState` before the catch:
`JSON.parse(Buffer.from(encodedState, 'base64').toString('utf-8'))`. -/
def decodeStatePipeline (s : String) : Option Js.Json :=
  Js.jsonParse (Utf8.decode (B64.decode s.data))

/-- `AuthUtils.decodeState` (authUtils.ts lines 68-81): the try/catch turns
a `JSON.parse` throw into `null`, modelled by the parser's `none`. The
declared return type is a lie in the source (no shape validation happens),
so the model returns the parsed JSON value. -/
def decodeState (s : String) : Option Js.Json :=
  decodeStatePipeline s

end AuthUtils

/-- `isAuthForTenant` (auth.ts lines 118-120). -/
def isAuthForTenant (cfg : FeishuConfig) : Bool :=
  cfg.authType = "tenant"

/-- Unescaped characters of JavaScript `encodeURIComponent`. -/
def isUriUnreserved (c : Char) : Bool :=
  let n := c.toNat
  (65 ≤ n ∧ n ≤ 90) ∨ (97 ≤ n ∧ n ≤ 122) ∨ (48 ≤ n ∧ n ≤ 57) ∨
    n = 45 ∨ n = 95 ∨ n = 46 ∨ n = 33 ∨ n = 126 ∨ n = 42 ∨ n = 39 ∨ n = 40 ∨ n = 41

def hexUpper (n : Nat) : Char :=
  if n < 10 then Char.ofNat (48 + n) else Char.ofNat (55 + n)

/-- Percent-encoding of one byte. -/
def pctByte (b : Nat) : List Char :=
  [Char.ofNat 37, hexUpper (b / 16), hexUpper (b % 16)]

def uriEncodeChars : List Char → List Char
  | [] => []
  | c :: cs =>
    (if isUriUnreserved c then [c] else ((Utf8.encChar c).map pctByte).flatten) ++
      uriEncodeChars cs

/-- JavaScript `encodeURIComponent`: unreserved characters pass through,
everything else becomes percent-encoded UTF-8 bytes. -/
def encodeURIComponent (s : String) : String :=
  String.mk (uriEncodeChars s.data)

/-- The OAuth scope literal of auth.ts line 337. -/
def rawScope : String :=
  "base:app:read bitable:app bitable:app:readonly board:whiteboard:node:read contact:user.employee_id:readonly docs:document.content:read docx:document docx:document.block:convert docx:document:create docx:document:readonly drive:drive drive:drive:readonly drive:file drive:file:upload sheets:spreadsheet sheets:spreadsheet:readonly space:document:retrieve space:folder:create wiki:space:read wiki:space:retrieve wiki:wiki wiki:wiki:readonly offline_access"

structure AuthErrorResponse where
  error : String
  error_description : String
  statusCode : Nat
deriving DecidableEq, Repr

/-- `generateAuthErrorResponse` (auth.ts lines 323-346): a caller that can
follow the bearer-token flow gets a 401; a legacy caller gets status 500
with a human-followable authorization link in the description. -/
def generateAuthErrorResponse (cfg : FeishuConfig) (supported : Bool)
    (baseUrl reqKey : String) : AuthErrorResponse :=
  if supported then
    { error := "unauthorized"
      error_description :=
        "Missing or invalid Authorization header. Please provide a valid user access token."
      statusCode := 401 }
  else
    let redirect_uri := encodeURIComponent (baseUrl ++ "/callback?baseUrl=" ++ baseUrl)
    let scope := encodeURIComponent rawScope
    let url := "https://accounts.feishu.cn/open-apis/authen/v1/authorize?client_id=" ++
      cfg.appId ++ "&redirect_uri=" ++ redirect_uri ++ "&scope=" ++ scope ++ "&state=" ++ reqKey
    { error := "unauthorized"
      error_description := "请提示用戶在浏览器打开以下链接进行授权：\n\n[点击授权](" ++ url ++ ")"
      statusCode := 500 }

/-- Request data read by `getRequestKey` / `isUserAuthSupported`. The query
parameters are modelled as present-or-absent strings (the
`typeof x === 'string'` guards exclude array-valued parameters). -/
structure AuthRequest where
  authorization : Option String := none
  userAgent : Option String := none
  sessionId : Option String := none
  userKey : Option String := none

/-- Match `Cursor\/(\d+)\.(\d+)\.(\d+)` at the head of the input. -/
def matchCursorAt (l : List Char) : Option (Nat × Nat × Nat) :=
  if "Cursor/".data.isPrefixOf l then
    let after := l.drop 7
    let p1 := Js.spanDigits after
    match p1.2 with
    | d1 :: r1 =>
      if p1.1 ≠ [] ∧ d1.toNat = 46 then
        let p2 := Js.spanDigits r1
        match p2.2 with
        | d2 :: r2 =>
          if p2.1 ≠ [] ∧ d2.toNat = 46 then
            let p3 := Js.spanDigits r2
            if p3.1 ≠ [] then some (Js.digitsVal p1.1, Js.digitsVal p2.1, Js.digitsVal p3.1)
            else none
          else none
        | [] => none
      else none
    | [] => none
  else none

/-- Search for the first match of the Cursor version pattern, as
`String.prototype.match` does. -/
def findCursor : List Char → Option (Nat × Nat × Nat)
  | [] => none
  | c :: cs =>
    match matchCursorAt (c :: cs) with
    | some v => some v
    | none => findCursor cs

/-- `isUserAuthSupported` (auth.ts lines 194-234): parses the Cursor version
from the user-agent header; 1.5.0 and later support user authorization. -/
def isUserAuthSupported (req : AuthRequest) : Bool :=
  match req.userAgent with
  | none => false
  | some ua =>
    match findCursor ua.data with
    | none => false
    | some (major, minor, patch) =>
      if major > 1 then true
      else if major = 1 ∧ minor > 5 then true
      else if major = 1 ∧ minor = 5 ∧ patch ≥ 0 then true
      else false

/-- The module-level `sessionUserKeyMap` of auth.ts. -/
abbrev SessionMap := List (String × String)

def sessionMapGet (m : SessionMap) (k : String) : Option String := List.lookup k m

def sessionMapSet (m : SessionMap) (k v : String) : SessionMap :=
  (k, v) :: m.filter (fun e => e.1 ≠ k)

/-- `getRequestKey` (auth.ts lines 135-180): tenant mode ignores the request
entirely; user mode takes the bearer token for capable clients, and the
`userKey`/`sessionId` query parameters (binding their association) for
legacy clients. Returns the key and the possibly updated session map. -/
def getRequestKey (cfg : FeishuConfig) (req : AuthRequest) (m : SessionMap) :
    String × SessionMap :=
  if isAuthForTenant cfg then ("", m)
  else if isUserAuthSupported req then
    match req.authorization with
    | some a =>
      if a ≠ "" ∧ a.startsWith "Bearer " then
        let token := ((a.drop 7).trim)
        if token ≠ "" then (token, m) else ("", m)
      else ("", m)
    | none => ("", m)
  else
    let ukOk : Bool := match req.userKey with
      | some u => u ≠ "" ∧ u.trim ≠ ""
      | none => false
    let sidOk : Bool := match req.sessionId with
      | some sid => sid ≠ "" ∧ sid.trim ≠ ""
      | none => false
    if ukOk then
      let uk := (req.userKey.getD "").trim
      if sidOk then (uk, sessionMapSet m ((req.sessionId.getD "").trim) uk)
      else (uk, m)
    else if sidOk then
      let sid := (req.sessionId.getD "").trim
      match sessionMapGet m sid with
      | some found => if found ≠ "" then (found, m) else (sid, m)
      | none => (sid, m)
    else ("", m)

/-! ## AuthService (src/services/feishuAuthService.ts) -/

namespace AuthService

open TokenCacheManager

/-- A thrown JavaScript error as observed by the eviction logic: its
`message` and, for an axios error, `response.data.code`. -/
structure JsErr where
  message : String := ""
  respCode : Option Int := none
deriving DecidableEq, Repr

/-- Response data of the upstream refresh call
(`POST open-apis/authen/v2/oauth/token`); absent numeric fields are `0`,
absent strings `""` (JavaScript falsy). -/
structure UpstreamTokenResp where
  access_token : String := ""
  expires_in : Nat := 0
  refresh_token : String := ""
  refresh_token_expires_in : Nat := 0
deriving DecidableEq, Repr

/-- Outcome of the upstream HTTP call: a thrown axios error (network
failure or non-2xx status) or the parsed response body. -/
abbrev UpstreamOutcome := Except JsErr UpstreamTokenResp

/-- `AuthService.refreshUserToken` (feishuAuthService.ts lines 63-124).
Looks the record up by `clientKey`, refreshes it upstream and re-caches it;
every failure is a thrown error (`Except.error`). The upstream call's
outcome is the parameter `upstream`. `appId`/`appSecret` model the optional
parameters (`""` for an absent argument, matching JavaScript falsiness). -/
def refreshUserToken (c : Cache) (clientKey : String) (appId appSecret : String)
    (nowMs : Nat) (upstream : UpstreamOutcome) : Except JsErr UserTokenInfo × Cache :=
  match getUserTokenInfo c clientKey nowMs with
  | (none, c1) => (.error { message := "无法获取token信息: " ++ clientKey }, c1)
  | (some tokenInfo, c1) =>
    let actualRefreshToken := tokenInfo.refresh_token
    let actualAppId := if tokenInfo.client_id ≠ "" then tokenInfo.client_id else appId
    let actualAppSecret := if tokenInfo.client_secret ≠ "" then tokenInfo.client_secret
      else appSecret
    if actualRefreshToken = "" then
      (.error { message := "无法获取refresh_token，无法刷新用户访问令牌" }, c1)
    else if actualAppId = "" ∨ actualAppSecret = "" then
      (.error { message := "无法获取client_id或client_secret，无法刷新用户访问令牌" }, c1)
    else
      match upstream with
      | .error e => (.error e, c1)
      | .ok data =>
        if data.access_token ≠ "" ∧ data.expires_in ≠ 0 then
          let now := nowMs / 1000
          let newInfo : UserTokenInfo :=
            { access_token := data.access_token
              refresh_token := data.refresh_token
              expires_at := now + data.expires_in
              refresh_token_expires_at :=
                if data.refresh_token_expires_in ≠ 0 then now + data.refresh_token_expires_in
                else 0
              client_id := actualAppId
              client_secret := actualAppSecret }
          let refreshTtl := if data.refresh_token_expires_in ≠ 0 then
            data.refresh_token_expires_in else 3600 * 24 * 365
          (.ok newInfo, cacheUserToken c1 clientKey newInfo (some refreshTtl) nowMs)
        else (.error { message := "刷新用户访问令牌失败" }, c1)

/-- Result of `getUserAccessToken`: a token, or the thrown
`AuthRequiredError`. -/
inductive AuthResult where
  | token (t : String)
  | authRequired
deriving DecidableEq, Repr

/-- `AuthService.getUserAccessToken` (feishuAuthService.ts lines 135-172).
Serves a valid cached token; otherwise, when the status allows a refresh,
attempts one — and on ANY refresh error (the catch block) removes the
cached record — finally throwing `AuthRequiredError` when no token was
produced. -/
def getUserAccessToken (c : Cache) (clientKey : String) (appId appSecret : String)
    (nowMs : Nat) (upstream : UpstreamOutcome) : AuthResult × Cache :=
  let r0 := checkUserTokenStatus c clientKey nowMs
  let tokenStatus := r0.1
  let afterValid : Option (String × Cache) × Cache :=
    if tokenStatus.isValid ∧ ¬ tokenStatus.shouldRefresh then
      match getUserToken r0.2 clientKey nowMs with
      | (some t, c2) => if t ≠ "" then (some (t, c2), c2) else (none, c2)
      | (none, c2) => (none, c2)
    else (none, r0.2)
  match afterValid.1 with
  | some (t, c2) => (.token t, c2)
  | none =>
    let c2 := afterValid.2
    if tokenStatus.canRefresh ∧ (tokenStatus.isExpired ∨ tokenStatus.shouldRefresh) then
      match refreshUserToken c2 clientKey appId appSecret nowMs upstream with
      | (.ok refreshed, c3) =>
        if refreshed.access_token ≠ "" then (.token refreshed.access_token, c3)
        else (.authRequired, c3)
      | (.error _, c3) => (.authRequired, removeUserToken c3 clientKey)
    else (.authRequired, c2)

end AuthService

/-! ## TokenRefreshManager (src/utils/auth/tokenRefreshManager.ts) -/

namespace TokenRefreshManager

open TokenCacheManager AuthService

/-- Whether a refresh error evicts the record
(tokenRefreshManager.ts line 128): upstream code 99991669, or an error
message mentioning `refresh_token`. -/
def isDefinitiveRefreshError (e : JsErr) : Bool :=
  e.respCode = some 99991669 ∨ "refresh_token".data <:+: e.message.data

/-- Loop body of `TokenRefreshManager.checkAndRefreshTokens`
(tokenRefreshManager.ts lines 87-145) for one client key: re-check the
status, skip records unable to refresh, and on a refresh error evict only
when `isDefinitiveRefreshError` holds. Returns the resulting cache. -/
def checkAndRefreshOne (c : Cache) (clientKey : String) (nowMs : Nat)
    (upstream : UpstreamOutcome) : Cache :=
  let r0 := checkUserTokenStatus c clientKey nowMs
  let tokenStatus := r0.1
  let c1 := r0.2
  if tokenStatus.shouldRefresh ∨ (tokenStatus.canRefresh ∧ tokenStatus.isExpired) then
    match getUserTokenInfo c1 clientKey nowMs with
    | (none, c2) => c2
    | (some tokenInfo, c2) =>
      if tokenInfo.refresh_token = "" then c2
      else if tokenInfo.client_id = "" ∨ tokenInfo.client_secret = "" then c2
      else
        match refreshUserToken c2 clientKey "" "" nowMs upstream with
        | (.ok _, c3) => c3
        | (.error e, c3) =>
          if isDefinitiveRefreshError e then removeUserToken c3 clientKey else c3
  else c1

end TokenRefreshManager

/-! ## FeishuOAuthServer (src/auth/feishuOAuthServer.ts) -/

namespace FeishuOAuthServer

open TokenCacheManager AuthService

/-- JavaScript truthiness of an optional query/body string. -/
def optTruthy : Option String → Bool
  | some s => s ≠ ""
  | none => false

/-- Query of the `/oauth/feishu/callback` request. -/
structure CbQuery where
  code : Option String := none
  state : Option String := none
  error : Option String := none

/-- Response of `handleFeishuCallback`. `redirectTo` carries the components
of the final redirect (`new URL(original_redirect_uri)` with the upstream
`code` and, when truthy, the caller's original `state` reattached); URL
well-formedness itself is not modelled — an invalid URL throws and lands in
`decodeFailed`, which no claim depends on. -/
inductive CbResponse where
  | authFailed (e : String)
  | missingParams
  | stateExpired
  | redirectTo (originalRedirectUri : String) (code : String) (originalState : Option Js.Json)
  | decodeFailed

/-- `handleFeishuCallback` (feishuOAuthServer.ts lines 196-251): reject an
upstream `error`, require `code` and `state`, decode the base64 JSON state
blob (a parse throw, or destructuring `null`, lands in the catch → 400
decode failure), reject a state older than five minutes
(`now - timestamp > 5 * 60 * 1000`), else redirect to the original caller.
A non-numeric `timestamp` value goes through JavaScript `ToNumber` (outside
this model; `undefined` gives `NaN`, whose comparison is `false`) — the
model treats every non-numeric timestamp as not expired, and no claim
depends on that case. -/
def handleFeishuCallback (q : CbQuery) (nowMs : Nat) : CbResponse :=
  if optTruthy q.error then .authFailed (q.error.getD "")
  else if ¬ optTruthy q.code ∨ ¬ optTruthy q.state then .missingParams
  else
    match AuthUtils.decodeStatePipeline (q.state.getD "") with
    | none => .decodeFailed
    | some j =>
      match j with
      | .null => .decodeFailed
      | _ =>
        let expired : Bool := match Js.jGet j "timestamp" with
          | some (.num t) => decide ((nowMs : Int) - t > 5 * 60 * 1000)
          | _ => false
        if expired then .stateExpired
        else
          match Js.jGet j "original_redirect_uri" with
          | some (.str u) => .redirectTo u (q.code.getD "") (Js.jGet j "original_state")
          | _ => .decodeFailed

/-- Body of a `POST /token` request. -/
structure TokenBody where
  grant_type : Option String := none
  code : Option String := none
  refresh_token : Option String := none

/-- Fields the token-exchange endpoint reads from the record returned by
`CacheManager.getInstance().getUserToken(clientKey)` (the `utils/cache.ts`
variant providing `getUserToken` is absent from the sources; on a cache
miss it returns `null`, which is all the claims rely on). -/
structure TempToken where
  refresh_token_expires_at : Nat := 0
  expires_in : Nat := 0
deriving DecidableEq, Repr

/-- Responses of `handleTokenExchange`: a minted opaque token
(`{access_token, token_type, expires_in}`), the odd stale-temp-token branch
(`{token, token_type, expires_in}`), or a structured OAuth error with its
HTTP status and `error` code. -/
inductive TokenResp where
  | minted (access_token : String) (token_type : String) (expires_in : Nat)
  | tempToken (tok : String) (token_type : String) (expires_in : Nat)
  | oauthError (status : Nat) (errCode : String)
deriving DecidableEq, Repr

/-- The `error` field of an OAuth error response, if any. -/
def errField : TokenResp → Option String
  | .oauthError _ e => some e
  | _ => none

/-- Common success block (feishuOAuthServer.ts lines 335-361) for the
authorization-code branch: the upstream response carries `expires_in` but no
absolute timestamps, so `cacheUserToken` falls back to its default entry
TTL. `freshTok` is the minted `CacheManager.generateRandomKey()`. -/
def mintFromCode (cfg : FeishuConfig) (tc : Cache) (freshTok : String) (nowMs : Nat)
    (data : UpstreamTokenResp) : TokenResp × Cache :=
  if data.access_token ≠ "" then
    let clientKey2 := generateClientKey cfg.appId cfg.appSecret (some freshTok)
    let info : UserTokenInfo :=
      { access_token := data.access_token
        refresh_token := data.refresh_token
        generated_token := freshTok }
    (.minted freshTok "Bearer" (1000 * 60 * 24 * 365), cacheUserToken tc clientKey2 info none nowMs)
  else (.oauthError 400 "invalid_grant", tc)

/-- Common success block for the refresh branch (the refreshed record from
`AuthService.refreshUserToken`). -/
def mintFromRefresh (cfg : FeishuConfig) (tc : Cache) (freshTok : String) (nowMs : Nat)
    (data : UserTokenInfo) : TokenResp × Cache :=
  if data.access_token ≠ "" then
    let clientKey2 := generateClientKey cfg.appId cfg.appSecret (some freshTok)
    let info : UserTokenInfo := { data with generated_token := freshTok }
    (.minted freshTok "Bearer" (1000 * 60 * 24 * 365), cacheUserToken tc clientKey2 info none nowMs)
  else (.oauthError 400 "invalid_grant", tc)

/-- `handleTokenExchange` (feishuOAuthServer.ts lines 256-376). Parameter
model of the effects: `cmGetUserToken` is the lookup in the separate
`CacheManager`, `freshTok` the random key minted on success, `upstreamCode`
and `upstreamRefresh` the outcomes of the two possible upstream calls. The
refresh branch calls `this.authService.refreshUserToken(refresh_token,
clientKey, appId, appSecret)` against the three-parameter signature
`refreshUserToken(clientKey, appId?, appSecret?)` — JavaScript binds
`clientKey := refresh_token`, `appId := clientKey`,
`appSecret := this.config.feishu.appId` and silently drops the rest — so
the cache lookup inside the refresh uses the presented refresh-token string
as the key. A thrown error inside the inner try (including the throw of
`refreshUserToken` when no record exists) is answered with HTTP 500
`server_error`. -/
def handleTokenExchange (cfg : FeishuConfig) (body : TokenBody) (tc : Cache)
    (cmGetUserToken : String → Option TempToken) (freshTok : String) (nowMs : Nat)
    (upstreamCode : UpstreamOutcome) (upstreamRefresh : UpstreamOutcome) :
    TokenResp × Cache :=
  if ¬ optTruthy body.grant_type then (.oauthError 400 "invalid_request", tc)
  else if body.grant_type ≠ some "authorization_code" ∧
      body.grant_type ≠ some "refresh_token" then
    (.oauthError 400 "unsupported_grant_type", tc)
  else if body.grant_type = some "authorization_code" ∧ ¬ optTruthy body.code then
    (.oauthError 400 "invalid_request", tc)
  else if body.grant_type = some "refresh_token" ∧ ¬ optTruthy body.refresh_token then
    (.oauthError 400 "invalid_request", tc)
  else if body.grant_type = some "authorization_code" then
    match upstreamCode with
    | .error _ => (.oauthError 500 "server_error", tc)
    | .ok data => mintFromCode cfg tc freshTok nowMs data
  else
    let rt := body.refresh_token.getD ""
    let clientKey := generateClientKey cfg.appId cfg.appSecret (some rt)
    let tempStale : Bool := match cmGetUserToken clientKey with
      | some tmp => tmp.refresh_token_expires_at * 1000 < nowMs
      | none => false
    if tempStale then
      let tmp := (cmGetUserToken clientKey).getD {}
      (.tempToken freshTok "Bearer" (if tmp.expires_in ≠ 0 then tmp.expires_in else 7200), tc)
    else
      match refreshUserToken tc rt clientKey cfg.appId nowMs upstreamRefresh with
      | (.error _, tc1) => (.oauthError 500 "server_error", tc1)
      | (.ok data, tc1) => mintFromRefresh cfg tc1 freshTok nowMs data

end FeishuOAuthServer

/-! ## Shared lemmas for the claims -/

theorem lookup_filter_ne {β : Type} (l : List (String × β)) (k : String) :
    List.lookup k (l.filter (fun e => e.1 ≠ k)) = none := by
  induction l with
  | nil => rfl
  | cons e l ih =>
    rw [List.filter_cons]
    by_cases he : e.1 = k
    · rw [if_neg (by simp [he])]
      exact ih
    · rw [if_pos (by simp [he])]
      rw [List.lookup_cons]
      have : (k == e.1) = false := by
        simp only [beq_eq_false_iff_ne, ne_eq]
        exact fun hh => he hh.symm
      rw [this]
      exact ih

theorem str_append_cancel_right {a b r : String} (h : a ++ r = b ++ r) : a = b := by
  apply String.ext
  have := congrArg String.data h
  rw [String.data_append, String.data_append] at this
  exact List.append_cancel_right this

theorem str_append_cancel_left {p a b : String} (h : p ++ a = p ++ b) : a = b := by
  apply String.ext
  have := congrArg String.data h
  rw [String.data_append, String.data_append] at this
  exact List.append_cancel_left this

/-! ## Claim C8 — TokenCacheManager.generateClientKey -/

namespace TokenCacheManager

/-- Normalization of the optional user key under JavaScript truthiness: an
absent key and the empty-string key behave identically. -/
def normUserKey : Option String → Option String
  | some u => if u = "" then none else some u
  | none => none

/-- The `userPart` suffix of `generateClientKey`. -/
def userPartOf : Option String → String
  | some u => if u ≠ "" then ":" ++ u else ""
  | none => ""

theorem generateClientKey_eq (a b : String) (u : Option String) :
    generateClientKey a b u = a ++ ":" ++ b ++ userPartOf u := by
  cases u with
  | none => rfl
  | some s =>
    by_cases hs : s = ""
    · simp [generateClientKey, userPartOf, hs]
    · simp [generateClientKey, userPartOf, hs]

theorem userPartOf_inj {u u' : Option String} (h : userPartOf u = userPartOf u') :
    normUserKey u = normUserKey u' := by
  match u, u' with
  | none, none => rfl
  | none, some s' =>
    by_cases hs : s' = ""
    · simp [normUserKey, hs]
    · exfalso
      rw [userPartOf, userPartOf, if_pos hs] at h
      have := congrArg String.data h
      simp [String.data_append] at this
  | some s, none =>
    by_cases hs : s = ""
    · simp [normUserKey, hs]
    · exfalso
      rw [userPartOf, userPartOf, if_pos hs] at h
      have := congrArg String.data h
      simp [String.data_append] at this
  | some s, some s' =>
    by_cases hs : s = "" <;> by_cases hs' : s' = ""
    · simp [normUserKey, hs, hs']
    · exfalso
      rw [userPartOf, userPartOf, if_neg (by simp [hs]), if_pos (by simp [hs'])] at h
      have := congrArg String.data h
      simp [String.data_append] at this
    · exfalso
      rw [userPartOf, userPartOf, if_pos (by simp [hs]), if_neg (by simp [hs'])] at h
      have := congrArg String.data h
      simp [String.data_append] at this
    · rw [userPartOf, userPartOf, if_pos (by simp [hs]), if_pos (by simp [hs'])] at h
      have := str_append_cancel_left h
      simp [normUserKey, hs, hs', this]

end TokenCacheManager

/-- Claim C8 counterexample: `generateClientKey` is NOT injective in every
single input — holding the application id and secret fixed and changing the
optional user key from absent to the empty string leaves the output
unchanged, because both are falsy in JavaScript. -/
theorem C8_counterexample :
    TokenCacheManager.generateClientKey "a" "b" none =
      TokenCacheManager.generateClientKey "a" "b" (some "") ∧
    (none : Option String) ≠ some "" := by
  constructor
  · rfl
  · simp

/-- Claim C8 (amended): `generateClientKey` is a pure deterministic function
of the triple; identical inputs yield identical output; changing the
application id alone, the application secret alone, or the (normalized)
optional user key alone changes the output — the single exception being the
absent vs. empty-string user key of the counterexample, which JavaScript
falsiness identifies. In particular no two distinct (nonempty) end-user
identifiers collide on the same key. -/
theorem C8_client_key_injective :
    (∀ a b u, TokenCacheManager.generateClientKey a b u =
      TokenCacheManager.generateClientKey a b u)
    ∧ (∀ a a' b u, a ≠ a' → TokenCacheManager.generateClientKey a b u ≠
        TokenCacheManager.generateClientKey a' b u)
    ∧ (∀ a b b' u, b ≠ b' → TokenCacheManager.generateClientKey a b u ≠
        TokenCacheManager.generateClientKey a b' u)
    ∧ (∀ a b u u', TokenCacheManager.normUserKey u ≠ TokenCacheManager.normUserKey u' →
        TokenCacheManager.generateClientKey a b u ≠
          TokenCacheManager.generateClientKey a b u') := by
  refine ⟨fun a b u => rfl, ?_, ?_, ?_⟩
  · intro a a' b u hne h
    rw [TokenCacheManager.generateClientKey_eq, TokenCacheManager.generateClientKey_eq] at h
    apply hne
    apply String.ext
    have hd := congrArg String.data h
    simp only [String.data_append, List.append_assoc] at hd
    exact List.append_cancel_right hd
  · intro a b b' u hne h
    rw [TokenCacheManager.generateClientKey_eq, TokenCacheManager.generateClientKey_eq] at h
    apply hne
    apply String.ext
    have hd := congrArg String.data h
    simp only [String.data_append, List.append_assoc] at hd
    have h1 := List.append_cancel_left hd
    have h2 := List.append_cancel_left h1
    exact List.append_cancel_right h2
  · intro a b u u' hne h
    rw [TokenCacheManager.generateClientKey_eq, TokenCacheManager.generateClientKey_eq] at h
    apply hne
    apply TokenCacheManager.userPartOf_inj
    apply String.ext
    have hd := congrArg String.data h
    simp only [String.data_append, List.append_assoc] at hd
    have h1 := List.append_cancel_left hd
    have h2 := List.append_cancel_left h1
    exact List.append_cancel_left h2

/-- Claim C8 witness: the amended statement evaluated at concrete inputs. -/
theorem C8_client_key_injective_witness :
    TokenCacheManager.generateClientKey "id1" "sec" (some "alice") =
      TokenCacheManager.generateClientKey "id1" "sec" (some "alice") ∧
    TokenCacheManager.generateClientKey "id1" "sec" (some "alice") ≠
      TokenCacheManager.generateClientKey "id2" "sec" (some "alice") ∧
    TokenCacheManager.generateClientKey "id1" "sec" (some "alice") ≠
      TokenCacheManager.generateClientKey "id1" "sec2" (some "alice") ∧
    TokenCacheManager.generateClientKey "id1" "sec" (some "alice") ≠
      TokenCacheManager.generateClientKey "id1" "sec" (some "bob") :=
  ⟨C8_client_key_injective.1 "id1" "sec" (some "alice"),
   C8_client_key_injective.2.1 "id1" "id2" "sec" (some "alice") (by decide),
   C8_client_key_injective.2.2.1 "id1" "sec" "sec2" (some "alice") (by decide),
   C8_client_key_injective.2.2.2 "id1" "sec" (some "alice") (some "bob") (by decide)⟩

/-! ## Claim C9 — tenant-mode noninterference in the user identity -/

/-- Claim C9: in tenant-mode deployment (`authType = "tenant"`) the resolved
request key and the derived client key are independent of the request and of
the `userKey`: any two requests resolve to the same key, any two user keys
derive the same client key (for the SHA-256 hash as for any function of the
source string), and hence both resolve to the same cached tenant record. -/
theorem C9_tenant_key_ignores_user :
    ∀ (hash : String → String) (cfg : FeishuConfig) (reqA reqB : AuthRequest)
      (m : SessionMap) (u1 u2 : Option String) (tcc : TokenCacheManager.Cache)
      (nowMs : Nat),
      cfg.authType = "tenant" →
      (getRequestKey cfg reqA m).1 = (getRequestKey cfg reqB m).1
      ∧ AuthUtils.generateClientKey hash cfg u1 = AuthUtils.generateClientKey hash cfg u2
      ∧ TokenCacheManager.getTenantTokenInfo tcc
          (AuthUtils.generateClientKey hash cfg u1) nowMs =
        TokenCacheManager.getTenantTokenInfo tcc
          (AuthUtils.generateClientKey hash cfg u2) nowMs := by
  intro hash cfg reqA reqB m u1 u2 tcc nowMs h
  have hkey : ∀ u, AuthUtils.generateClientKey hash cfg u =
      hash (cfg.appId ++ ":" ++ cfg.appSecret) := by
    intro u
    simp [AuthUtils.generateClientKey, h]
  refine ⟨?_, ?_, ?_⟩
  · simp [getRequestKey, isAuthForTenant, h]
  · rw [hkey u1, hkey u2]
  · rw [hkey u1, hkey u2]

/-- Claim C9 witness at concrete requests and user keys. -/
theorem C9_tenant_key_ignores_user_witness :
    (getRequestKey ⟨"app", "sec", "tenant"⟩
        { userKey := some "alice", sessionId := some "s1" } []).1 =
      (getRequestKey ⟨"app", "sec", "tenant"⟩
        { userKey := some "bob", authorization := some "Bearer xyz" } []).1
    ∧ AuthUtils.generateClientKey id ⟨"app", "sec", "tenant"⟩ (some "alice") =
      AuthUtils.generateClientKey id ⟨"app", "sec", "tenant"⟩ (some "bob")
    ∧ TokenCacheManager.getTenantTokenInfo []
        (AuthUtils.generateClientKey id ⟨"app", "sec", "tenant"⟩ (some "alice")) 0 =
      TokenCacheManager.getTenantTokenInfo []
        (AuthUtils.generateClientKey id ⟨"app", "sec", "tenant"⟩ (some "bob")) 0 :=
  C9_tenant_key_ignores_user id ⟨"app", "sec", "tenant"⟩
    { userKey := some "alice", sessionId := some "s1" }
    { userKey := some "bob", authorization := some "Bearer xyz" }
    [] (some "alice") (some "bob") [] 0 rfl

/-! ## Claim C2 — per-namespace eviction rules of the periodic sweep -/

namespace TokenCacheManager

theorem tenantNs_not_userNs {k : String} (h : strStartsWith k tenantNs = true) :
    strStartsWith k userNs = false := by
  unfold strStartsWith at h ⊢
  rw [decide_eq_true_iff] at h
  rw [decide_eq_false_iff_not]
  obtain ⟨t, ht⟩ := h
  intro ⟨t', ht'⟩
  rw [← ht] at ht'
  have := congrArg List.head? ht'
  simp [tenantNs, userNs] at this

end TokenCacheManager

/-- Claim C2: the sweep `cleanExpiredTokens` applies different eviction
rules per namespace. A user-namespace record holding a refresh token with a
refresh-expiry timestamp stays in the swept cache iff its refresh expiry has
not passed (`refreshExpiresAt < now` in seconds evicts) — so a record whose
access token is stale but whose refresh capability persists is retained —
while a tenant-namespace record stays iff the cache entry's own expiry has
not passed (`expiresAt ≤ now` in milliseconds evicts). -/
theorem C2_sweep_rules :
    ∀ (c : TokenCacheManager.Cache) (nowMs : Nat) (k : String)
      (item : TokenCacheManager.CacheItem),
      (∀ u, TokenCacheManager.strStartsWith k TokenCacheManager.userNs = true →
        item.data = .user u → u.refresh_token ≠ "" → u.refresh_token_expires_at ≠ 0 →
        ((k, item) ∈ TokenCacheManager.cleanExpiredTokens c nowMs ↔
          (k, item) ∈ c ∧ ¬ (u.refresh_token_expires_at < nowMs / 1000)))
      ∧ (∀ t, TokenCacheManager.strStartsWith k TokenCacheManager.tenantNs = true →
        item.data = .tenant t →
        ((k, item) ∈ TokenCacheManager.cleanExpiredTokens c nowMs ↔
          (k, item) ∈ c ∧ ¬ (item.expiresAt ≤ nowMs))) := by
  intro c nowMs k item
  constructor
  · intro u hk hdata hrt hre
    unfold TokenCacheManager.cleanExpiredTokens
    rw [List.mem_filter]
    have hsd : TokenCacheManager.shouldDeleteEntry nowMs (k, item) =
        decide (u.refresh_token_expires_at < nowMs / 1000) := by
      unfold TokenCacheManager.shouldDeleteEntry
      rw [if_pos hk]
      simp only [hdata, TokenCacheManager.asUser]
      rw [if_pos ⟨hrt, hre⟩]
    rw [hsd]
    simp
  · intro t hk hdata
    unfold TokenCacheManager.cleanExpiredTokens
    rw [List.mem_filter]
    have hsd : TokenCacheManager.shouldDeleteEntry nowMs (k, item) =
        decide (item.expiresAt ≤ nowMs) := by
      unfold TokenCacheManager.shouldDeleteEntry
      rw [if_neg (by rw [TokenCacheManager.tenantNs_not_userNs hk]; simp)]
    rw [hsd]
    simp

/-- Concrete stale-but-refreshable user record for the C2 witness. -/
def c2UserRec : TokenCacheManager.UserTokenInfo where
  access_token := "at"
  refresh_token := "rt"
  expires_at := 10
  refresh_token_expires_at := 5000

/-- Concrete expired tenant record for the C2 witness. -/
def c2TenantRec : TokenCacheManager.TenantTokenInfo where
  app_access_token := "t"
  expires_at := 1

/-- Concrete two-entry cache for the C2 witness. -/
def c2Cache : TokenCacheManager.Cache :=
  [("user_access_token:k",
    { data := TokenCacheManager.TokenData.user c2UserRec, timestamp := 0,
      expiresAt := 5000000 }),
   ("tenant_access_token:k",
    { data := TokenCacheManager.TokenData.tenant c2TenantRec, timestamp := 0,
      expiresAt := 1000 })]

/-- Claim C2 witness: in `c2Cache` at `nowMs = 2000000` the
stale-but-refreshable user record is retained and the expired tenant entry
is evicted. -/
theorem C2_sweep_rules_witness :
    (("user_access_token:k",
      ({ data := TokenCacheManager.TokenData.user c2UserRec, timestamp := 0,
         expiresAt := 5000000 } : TokenCacheManager.CacheItem)) ∈
      TokenCacheManager.cleanExpiredTokens c2Cache 2000000 ↔ (True ∧ ¬ (5000 < 2000)))
    ∧ (("tenant_access_token:k",
      ({ data := TokenCacheManager.TokenData.tenant c2TenantRec, timestamp := 0,
         expiresAt := 1000 } : TokenCacheManager.CacheItem)) ∈
      TokenCacheManager.cleanExpiredTokens c2Cache 2000000 ↔ (True ∧ ¬ (1000 ≤ 2000000))) := by
  constructor
  · have h := (C2_sweep_rules c2Cache 2000000 "user_access_token:k"
      { data := TokenCacheManager.TokenData.user c2UserRec, timestamp := 0,
        expiresAt := 5000000 }).1 c2UserRec (by decide) rfl (by decide) (by decide)
    rw [h]
    constructor
    · intro hx
      exact ⟨trivial, by exact hx.2⟩
    · intro hx
      exact ⟨by simp [c2Cache], hx.2⟩
  · have h := (C2_sweep_rules c2Cache 2000000 "tenant_access_token:k"
      { data := TokenCacheManager.TokenData.tenant c2TenantRec, timestamp := 0,
        expiresAt := 1000 }).2 c2TenantRec (by decide) rfl
    rw [h]
    constructor
    · intro hx
      exact ⟨trivial, hx.2⟩
    · intro hx
      exact ⟨by simp [c2Cache], hx.2⟩

/-! ## Claim C3 — refresh-expired records are purged on the next get -/

/-- Claim C3: a cached user record holding a refresh token whose
`refreshExpiresAt` is strictly before the current second is purged by the
very next `getUserTokenInfo` for its key — the call returns `none` and
deletes the binding — and any subsequent get (at any time) misses;
`getUserToken` likewise returns `none`. -/
theorem C3_purge_on_get :
    ∀ (c : TokenCacheManager.Cache) (key : String) (nowMs nowMs2 : Nat)
      (item : TokenCacheManager.CacheItem) (u : TokenCacheManager.UserTokenInfo),
      TokenCacheManager.cacheGet c (TokenCacheManager.userNs ++ key) = some item →
      item.data = .user u →
      u.refresh_token ≠ "" →
      0 < u.refresh_token_expires_at →
      u.refresh_token_expires_at < nowMs / 1000 →
      TokenCacheManager.getUserTokenInfo c key nowMs =
        (none, TokenCacheManager.cacheDelete c (TokenCacheManager.userNs ++ key))
      ∧ TokenCacheManager.cacheGet
          (TokenCacheManager.cacheDelete c (TokenCacheManager.userNs ++ key))
          (TokenCacheManager.userNs ++ key) = none
      ∧ TokenCacheManager.getUserTokenInfo
          (TokenCacheManager.cacheDelete c (TokenCacheManager.userNs ++ key)) key nowMs2 =
        (none, TokenCacheManager.cacheDelete c (TokenCacheManager.userNs ++ key))
      ∧ (TokenCacheManager.getUserToken c key nowMs).1 = none := by
  intro c key nowMs nowMs2 item u hget hdata hrt hre hlt
  have hmain : TokenCacheManager.getUserTokenInfo c key nowMs =
      (none, TokenCacheManager.cacheDelete c (TokenCacheManager.userNs ++ key)) := by
    simp only [TokenCacheManager.getUserTokenInfo, hget]
    simp only [hdata, TokenCacheManager.asUser]
    rw [if_pos ⟨hrt, by omega⟩, if_pos hlt]
  have hdel : TokenCacheManager.cacheGet
      (TokenCacheManager.cacheDelete c (TokenCacheManager.userNs ++ key))
      (TokenCacheManager.userNs ++ key) = none :=
    lookup_filter_ne c (TokenCacheManager.userNs ++ key)
  refine ⟨hmain, hdel, ?_, ?_⟩
  · simp only [TokenCacheManager.getUserTokenInfo, hdel]
  · simp only [TokenCacheManager.getUserToken, hmain]
    rfl

/-- Concrete record and cache for the C3 witness. -/
def c3Rec : TokenCacheManager.UserTokenInfo where
  access_token := "at"
  refresh_token := "rt"
  expires_at := 900
  refresh_token_expires_at := 1000

def c3Cache : TokenCacheManager.Cache :=
  [("user_access_token:k",
    { data := TokenCacheManager.TokenData.user c3Rec, timestamp := 0,
      expiresAt := 999999999 })]

/-- Claim C3 witness at `nowMs = 2000000` (second 2000 > 1000). -/
theorem C3_purge_on_get_witness :
    TokenCacheManager.getUserTokenInfo c3Cache "k" 2000000 =
      (none, TokenCacheManager.cacheDelete c3Cache "user_access_token:k")
    ∧ TokenCacheManager.cacheGet
        (TokenCacheManager.cacheDelete c3Cache "user_access_token:k")
        "user_access_token:k" = none
    ∧ TokenCacheManager.getUserTokenInfo
        (TokenCacheManager.cacheDelete c3Cache "user_access_token:k") "k" 5 =
      (none, TokenCacheManager.cacheDelete c3Cache "user_access_token:k")
    ∧ (TokenCacheManager.getUserToken c3Cache "k" 2000000).1 = none :=
  C3_purge_on_get c3Cache "k" 2000000 5
    { data := TokenCacheManager.TokenData.user c3Rec, timestamp := 0,
      expiresAt := 999999999 }
    c3Rec (by decide) rfl (by decide) (by decide) (by decide)

/-! ## Claim C1 — checkUserTokenStatus vs. the validator reference definition -/

/-- Modelled from the spec: the validator's reference definition of §4.2
(`isExpired = expiresAt < now` when an expiry is present, `canRefresh`,
`shouldRefresh` with window `(0, 300]`, `isValid = !isExpired`), stated for
comparison with the implementation `checkUserTokenStatusCore`; presence of a
numeric field is JavaScript truthiness (`≠ 0`, `≠ ""`). -/
def specUserTokenStatus (u : TokenCacheManager.UserTokenInfo) (now : Nat) :
    TokenCacheManager.TokenStatus :=
  let isExpired := u.expires_at ≠ 0 ∧ u.expires_at < now
  let canRefresh := u.refresh_token ≠ "" ∧ u.refresh_token_expires_at ≠ 0 ∧
    u.refresh_token_expires_at > now
  let shouldRefresh := 0 < u.expires_at - now ∧ u.expires_at - now ≤ 300 ∧ canRefresh
  { isValid := decide ¬isExpired
    isExpired := decide isExpired
    canRefresh := decide canRefresh
    shouldRefresh := decide shouldRefresh }

/-- Record sitting exactly on the early-refresh boundary
(`expiresAt - now = 300`). -/
def c1BoundaryRec : TokenCacheManager.UserTokenInfo where
  access_token := "at"
  refresh_token := "r"
  expires_at := 300
  refresh_token_expires_at := 1000

def c1BoundaryCache : TokenCacheManager.Cache :=
  [("user_access_token:k",
    { data := TokenCacheManager.TokenData.user c1BoundaryRec, timestamp := 0,
      expiresAt := 1000000 })]

/-- Claim C1 counterexample: at `expiresAt - now = 300` exactly, the code
(`timeToExpiry < 300`, strict) reports `shouldRefresh = false`, while the
claim's reference window `(0, 300]` demands `true`; the record is
refreshable, so the divergence is precisely the boundary. -/
theorem C1_counterexample :
    (TokenCacheManager.checkUserTokenStatus c1BoundaryCache "k" 0).1.shouldRefresh = false
    ∧ (specUserTokenStatus c1BoundaryRec 0).shouldRefresh = true
    ∧ (TokenCacheManager.checkUserTokenStatus c1BoundaryCache "k" 0).1.canRefresh = true := by
  refine ⟨by decide, by decide, by decide⟩

/-- Claim C1 (amended): for every cached user token record that the lookup
returns, `checkUserTokenStatus` yields exactly `isExpired = (expiresAt
present AND expiresAt < now)`, `canRefresh = (refresh token present AND
refreshExpiresAt present AND refreshExpiresAt > now)`, `shouldRefresh =
(0 < expiresAt - now < 300 AND canRefresh)` — the early-refresh window is
OPEN at 300, not closed as the claim stated — and `isValid = !isExpired`;
when the lookup misses (no record, refresh capability lapsed, or cache entry
expired) the fixed status `{isValid := false, isExpired := true, canRefresh
:= false, shouldRefresh := false}` is returned. Consequently every returned
record with a refresh token, `expiresAt = now+200` and `refreshExpiresAt =
now+10000` yields `shouldRefresh = canRefresh = isValid = true`, and every
returned record with `expiresAt = now-5` (a genuine past second) and no
refresh token yields `isExpired = true`, `canRefresh = false` — as does a
lookup miss. -/
theorem C1_status_fields :
    ∀ (c : TokenCacheManager.Cache) (key : String) (nowMs : Nat),
      (∀ u, (TokenCacheManager.getUserTokenInfo c key nowMs).1 = some u →
        ((TokenCacheManager.checkUserTokenStatus c key nowMs).1.isExpired =
          decide (u.expires_at ≠ 0 ∧ u.expires_at < nowMs / 1000)
        ∧ (TokenCacheManager.checkUserTokenStatus c key nowMs).1.canRefresh =
          decide (u.refresh_token ≠ "" ∧ u.refresh_token_expires_at ≠ 0 ∧
            u.refresh_token_expires_at > nowMs / 1000)
        ∧ (TokenCacheManager.checkUserTokenStatus c key nowMs).1.shouldRefresh =
          decide (0 < u.expires_at - nowMs / 1000 ∧ u.expires_at - nowMs / 1000 < 300 ∧
            (u.refresh_token ≠ "" ∧ u.refresh_token_expires_at ≠ 0 ∧
              u.refresh_token_expires_at > nowMs / 1000))
        ∧ (TokenCacheManager.checkUserTokenStatus c key nowMs).1.isValid =
          ! (TokenCacheManager.checkUserTokenStatus c key nowMs).1.isExpired
        ∧ (u.expires_at = nowMs / 1000 + 200 →
            u.refresh_token_expires_at = nowMs / 1000 + 10000 → u.refresh_token ≠ "" →
            (TokenCacheManager.checkUserTokenStatus c key nowMs).1.shouldRefresh = true
            ∧ (TokenCacheManager.checkUserTokenStatus c key nowMs).1.canRefresh = true
            ∧ (TokenCacheManager.checkUserTokenStatus c key nowMs).1.isValid = true)
        ∧ (5 < nowMs / 1000 → u.expires_at = nowMs / 1000 - 5 → u.refresh_token = "" →
            (TokenCacheManager.checkUserTokenStatus c key nowMs).1.isExpired = true
            ∧ (TokenCacheManager.checkUserTokenStatus c key nowMs).1.canRefresh = false)))
      ∧ ((TokenCacheManager.getUserTokenInfo c key nowMs).1 = none →
        (TokenCacheManager.checkUserTokenStatus c key nowMs).1 =
          { isValid := false, isExpired := true, canRefresh := false,
            shouldRefresh := false }) := by
  intro c key nowMs
  have hbridge : ∀ u, (TokenCacheManager.getUserTokenInfo c key nowMs).1 = some u →
      (TokenCacheManager.checkUserTokenStatus c key nowMs).1 =
        TokenCacheManager.checkUserTokenStatusCore u (nowMs / 1000) := by
    intro u hu
    unfold TokenCacheManager.checkUserTokenStatus
    cases hres : TokenCacheManager.getUserTokenInfo c key nowMs with
    | mk o c1 =>
      rw [hres] at hu
      simp only at hu
      subst hu
      rfl
  have hbridge0 : (TokenCacheManager.getUserTokenInfo c key nowMs).1 = none →
      (TokenCacheManager.checkUserTokenStatus c key nowMs).1 =
        { isValid := false, isExpired := true, canRefresh := false,
          shouldRefresh := false } := by
    intro hu
    unfold TokenCacheManager.checkUserTokenStatus
    cases hres : TokenCacheManager.getUserTokenInfo c key nowMs with
    | mk o c1 =>
      rw [hres] at hu
      simp only at hu
      subst hu
      rfl
  refine ⟨?_, hbridge0⟩
  intro u hu
  rw [hbridge u hu]
  have hsr : (TokenCacheManager.checkUserTokenStatusCore u (nowMs / 1000)).shouldRefresh =
      decide (0 < u.expires_at - nowMs / 1000 ∧ u.expires_at - nowMs / 1000 < 300 ∧
        (u.refresh_token ≠ "" ∧ u.refresh_token_expires_at ≠ 0 ∧
          u.refresh_token_expires_at > nowMs / 1000)) := by
    show decide ((if u.expires_at ≠ 0 then u.expires_at - nowMs / 1000 else 0) > 0 ∧
      (if u.expires_at ≠ 0 then u.expires_at - nowMs / 1000 else 0) < 300 ∧ _) = _
    by_cases he : u.expires_at = 0
    · rw [if_neg (by simp [he])]
      rw [decide_eq_decide]
      rw [he]
      simp
    · rw [if_pos he]
  have hie : (TokenCacheManager.checkUserTokenStatusCore u (nowMs / 1000)).isExpired =
      decide (u.expires_at ≠ 0 ∧ u.expires_at < nowMs / 1000) := rfl
  have hcr : (TokenCacheManager.checkUserTokenStatusCore u (nowMs / 1000)).canRefresh =
      decide (u.refresh_token ≠ "" ∧ u.refresh_token_expires_at ≠ 0 ∧
        u.refresh_token_expires_at > nowMs / 1000) := rfl
  have hiv : (TokenCacheManager.checkUserTokenStatusCore u (nowMs / 1000)).isValid =
      ! (TokenCacheManager.checkUserTokenStatusCore u (nowMs / 1000)).isExpired := by
    show decide (¬ _) = ! decide _
    rw [decide_not]
  refine ⟨hie, hcr, hsr, hiv, ?_, ?_⟩
  · intro h1 h2 h3
    refine ⟨?_, ?_, ?_⟩
    · rw [hsr, decide_eq_true_iff]
      refine ⟨by omega, by omega, h3, by omega, by omega⟩
    · rw [hcr, decide_eq_true_iff]
      exact ⟨h3, by omega, by omega⟩
    · rw [hiv, hie]
      have : ¬ (u.expires_at ≠ 0 ∧ u.expires_at < nowMs / 1000) := by omega
      rw [decide_eq_false this]
      rfl
  · intro h1 h2 h3
    refine ⟨?_, ?_⟩
    · rw [hie, decide_eq_true_iff]
      omega
    · rw [hcr]
      have : ¬ (u.refresh_token ≠ "" ∧ u.refresh_token_expires_at ≠ 0 ∧
          u.refresh_token_expires_at > nowMs / 1000) := by
        intro hcon
        exact hcon.1 h3
      rw [decide_eq_false this]

/-- Record of the spec's first status scenario at `now = 1000`. -/
def c1WitRec : TokenCacheManager.UserTokenInfo where
  access_token := "at"
  refresh_token := "r"
  expires_at := 1200
  refresh_token_expires_at := 11000

def c1WitCache : TokenCacheManager.Cache :=
  [("user_access_token:k",
    { data := TokenCacheManager.TokenData.user c1WitRec, timestamp := 0,
      expiresAt := 99999999 })]

/-- Claim C1 witness: the amended statement applied to the scenario record
(`expiresAt = now+200`, `refreshExpiresAt = now+10000`) at `nowMs = 10^6`. -/
theorem C1_status_fields_witness :
    (TokenCacheManager.checkUserTokenStatus c1WitCache "k" 1000000).1.shouldRefresh = true
    ∧ (TokenCacheManager.checkUserTokenStatus c1WitCache "k" 1000000).1.canRefresh = true
    ∧ (TokenCacheManager.checkUserTokenStatus c1WitCache "k" 1000000).1.isValid = true := by
  have h := (C1_status_fields c1WitCache "k" 1000000).1 c1WitRec (by decide)
  exact h.2.2.2.2.1 (by decide) (by decide) (by decide)

/-! ## Claim C5 — eviction on refresh failure: sweep vs. on-demand path -/

/-- Claim C5 counterexample: a cached expired-but-refreshable record, a
purely transient upstream error (a network error: no upstream code, message
`Network Error`), and yet the on-demand path
`AuthService.getUserAccessToken` evicts the record (resulting cache empty),
contradicting the claim that transient failures never evict. -/
theorem C5_counterexample :
    TokenRefreshManager.isDefinitiveRefreshError { message := "Network Error" } = false
    ∧ (AuthService.getUserAccessToken
        [("user_access_token:k",
          { data := TokenCacheManager.TokenData.user
              { access_token := "at", refresh_token := "rt", expires_at := 10,
                refresh_token_expires_at := 1000000, client_id := "cid",
                client_secret := "cs" },
            timestamp := 0, expiresAt := 999999999999 })]
        "k" "" "" 20000 (.error { message := "Network Error" })).2 = []
    ∧ TokenCacheManager.cacheGet
        [("user_access_token:k",
          { data := TokenCacheManager.TokenData.user
              { access_token := "at", refresh_token := "rt", expires_at := 10,
                refresh_token_expires_at := 1000000, client_id := "cid",
                client_secret := "cs" },
            timestamp := 0, expiresAt := 999999999999 })]
        "user_access_token:k" ≠ none := by
  refine ⟨by decide, by decide, by decide⟩

/-- Claim C5 (amended): for an expired-but-refreshable cached record, the
eviction policy differs by path. In the background sweep
(`TokenRefreshManager.checkAndRefreshTokens`) a refresh failure leaves the
record in place unless the error is definitive (upstream code `99991669` or
an error message mentioning `refresh_token`), in which case the record is
evicted; but in the on-demand path (`AuthService.getUserAccessToken`) ANY
refresh failure — transient upstream errors included — evicts the cached
record and reports that re-authorization is required. -/
theorem C5_eviction_policy :
    ∀ (c : TokenCacheManager.Cache) (clientKey : String) (nowMs : Nat)
      (item : TokenCacheManager.CacheItem) (u : TokenCacheManager.UserTokenInfo)
      (e : AuthService.JsErr) (appId appSecret : String),
      TokenCacheManager.cacheGet c (TokenCacheManager.userNs ++ clientKey) = some item →
      item.data = .user u →
      u.refresh_token ≠ "" →
      u.client_id ≠ "" →
      u.client_secret ≠ "" →
      nowMs / 1000 < u.refresh_token_expires_at →
      u.expires_at ≠ 0 →
      u.expires_at < nowMs / 1000 →
      ((TokenRefreshManager.isDefinitiveRefreshError e = false →
        TokenRefreshManager.checkAndRefreshOne c clientKey nowMs (.error e) = c)
      ∧ (TokenRefreshManager.isDefinitiveRefreshError e = true →
        TokenRefreshManager.checkAndRefreshOne c clientKey nowMs (.error e) =
          TokenCacheManager.removeUserToken c clientKey
        ∧ TokenCacheManager.cacheGet (TokenCacheManager.removeUserToken c clientKey)
            (TokenCacheManager.userNs ++ clientKey) = none)
      ∧ AuthService.getUserAccessToken c clientKey appId appSecret nowMs (.error e) =
          (.authRequired, TokenCacheManager.removeUserToken c clientKey)) := by
  intro c clientKey nowMs item u e appId appSecret hget hdata hrt hcid hcs hre hea hexp
  have hgti : TokenCacheManager.getUserTokenInfo c clientKey nowMs = (some u, c) := by
    simp only [TokenCacheManager.getUserTokenInfo, hget]
    simp only [hdata, TokenCacheManager.asUser]
    rw [if_pos ⟨hrt, by omega⟩, if_neg (by omega)]
  have hst : TokenCacheManager.checkUserTokenStatus c clientKey nowMs =
      (TokenCacheManager.checkUserTokenStatusCore u (nowMs / 1000), c) := by
    unfold TokenCacheManager.checkUserTokenStatus
    rw [hgti]
  have hstSR : (TokenCacheManager.checkUserTokenStatusCore u (nowMs / 1000)).shouldRefresh
      = false := by
    show decide _ = false
    rw [decide_eq_false]
    intro hcon
    have h1 := hcon.1
    rw [if_pos hea] at h1
    omega
  have hstCR : (TokenCacheManager.checkUserTokenStatusCore u (nowMs / 1000)).canRefresh
      = true := by
    show decide _ = true
    rw [decide_eq_true_iff]
    exact ⟨hrt, by omega, by omega⟩
  have hstIE : (TokenCacheManager.checkUserTokenStatusCore u (nowMs / 1000)).isExpired
      = true := by
    show decide _ = true
    rw [decide_eq_true_iff]
    exact ⟨hea, hexp⟩
  have hstIV : (TokenCacheManager.checkUserTokenStatusCore u (nowMs / 1000)).isValid
      = false := by
    show decide _ = false
    rw [decide_eq_false]
    intro hcon
    exact hcon ⟨hea, hexp⟩
  have hrefresh : ∀ a b, AuthService.refreshUserToken c clientKey a b nowMs (.error e) =
      (.error e, c) := by
    intro a b
    simp only [AuthService.refreshUserToken, hgti]
    rw [if_neg hrt]
    rw [if_neg (by
      rw [if_pos hcid, if_pos hcs]
      simp [hcid, hcs])]
  refine ⟨?_, ?_, ?_⟩
  · intro htrans
    unfold TokenRefreshManager.checkAndRefreshOne
    rw [hst]
    simp only
    rw [if_pos (by rw [hstSR, hstCR, hstIE]; simp)]
    rw [hgti]
    simp only
    rw [if_neg hrt, if_neg (by simp [hcid, hcs]), hrefresh]
    simp only
    rw [if_neg (by rw [htrans]; simp)]
  · intro hdef
    refine ⟨?_, lookup_filter_ne c _⟩
    unfold TokenRefreshManager.checkAndRefreshOne
    rw [hst]
    simp only
    rw [if_pos (by rw [hstSR, hstCR, hstIE]; simp)]
    rw [hgti]
    simp only
    rw [if_neg hrt, if_neg (by simp [hcid, hcs]), hrefresh]
    simp only
    rw [if_pos hdef]
  · unfold AuthService.getUserAccessToken
    rw [hst]
    simp only
    rw [if_neg (by rw [hstIV]; simp)]
    simp only
    rw [if_pos (by rw [hstCR, hstIE]; simp), hrefresh]

/-- Concrete expired-but-refreshable record and cache for the C5 witness. -/
def c5Rec : TokenCacheManager.UserTokenInfo where
  access_token := "at"
  refresh_token := "rt"
  expires_at := 10
  refresh_token_expires_at := 1000000
  client_id := "cid"
  client_secret := "cs"

def c5Cache : TokenCacheManager.Cache :=
  [("user_access_token:k",
    { data := TokenCacheManager.TokenData.user c5Rec, timestamp := 0,
      expiresAt := 999999999999 })]

/-- Claim C5 witness: at `nowMs = 20000`, a transient network error leaves
the sweep's cache untouched, the definitive upstream code `99991669` evicts
in the sweep, and the on-demand path evicts even on the transient error. -/
theorem C5_eviction_policy_witness :
    (TokenRefreshManager.checkAndRefreshOne c5Cache "k" 20000
      (.error { message := "Network Error" }) = c5Cache)
    ∧ (TokenRefreshManager.checkAndRefreshOne c5Cache "k" 20000
      (.error { message := "invalid token", respCode := some 99991669 }) =
        TokenCacheManager.removeUserToken c5Cache "k")
    ∧ (AuthService.getUserAccessToken c5Cache "k" "" "" 20000
      (.error { message := "Network Error" }) =
        (.authRequired, TokenCacheManager.removeUserToken c5Cache "k")) := by
  have htrans := C5_eviction_policy c5Cache "k" 20000
    { data := TokenCacheManager.TokenData.user c5Rec, timestamp := 0,
      expiresAt := 999999999999 }
    c5Rec { message := "Network Error" } "" "" (by decide) rfl (by decide) (by decide)
    (by decide) (by decide) (by decide) (by decide)
  have hdef := C5_eviction_policy c5Cache "k" 20000
    { data := TokenCacheManager.TokenData.user c5Rec, timestamp := 0,
      expiresAt := 999999999999 }
    c5Rec { message := "invalid token", respCode := some 99991669 } "" ""
    (by decide) rfl (by decide) (by decide) (by decide) (by decide) (by decide) (by decide)
  exact ⟨htrans.1 (by decide), (hdef.2.1 (by decide)).1, htrans.2.2⟩

/-! ## Claim C4 — refresh grant with an unknown refresh token -/

/-- Claim C4 counterexample: a refresh-token grant whose presented token has
no cached record is answered with the structured error `server_error`
(HTTP 500) — not `invalid_grant` as claimed: the throw inside
`AuthService.refreshUserToken` ("无法获取token信息") is caught by the inner
catch of `handleTokenExchange`, which maps every thrown error to 500. -/
theorem C4_counterexample :
    FeishuOAuthServer.errField
      (FeishuOAuthServer.handleTokenExchange ⟨"app", "sec", "user"⟩
        { grant_type := some "refresh_token", refresh_token := some "unknown-rt" }
        [] (fun _ => none) "fresh" 0 (.error {}) (.error {})).1 = some "server_error"
    ∧ some "server_error" ≠ some "invalid_grant" := by
  refine ⟨by decide, by decide⟩

/-- Claim C4 (amended): for every refresh-token grant whose presented
`refresh_token` has no corresponding cached record (neither in the
`CacheManager` consulted for the stale-temp-token branch nor in the token
cache under the presented value, which the argument-shifted
`refreshUserToken` call uses as its lookup key), the endpoint answers with
the structured OAuth error `server_error` and HTTP status 500 — it does not
crash, and the token cache is left unchanged. -/
theorem C4_unknown_refresh_token_server_error :
    ∀ (cfg : FeishuConfig) (rt : String) (tc : TokenCacheManager.Cache)
      (cm : String → Option FeishuOAuthServer.TempToken) (freshTok : String)
      (nowMs : Nat) (upC upR : AuthService.UpstreamOutcome),
      rt ≠ "" →
      TokenCacheManager.cacheGet tc (TokenCacheManager.userNs ++ rt) = none →
      (∀ k, cm k = none) →
      FeishuOAuthServer.handleTokenExchange cfg
        { grant_type := some "refresh_token", refresh_token := some rt }
        tc cm freshTok nowMs upC upR =
      (.oauthError 500 "server_error", tc) := by
  intro cfg rt tc cm freshTok nowMs upC upR hrt htc hcm
  have hgti : TokenCacheManager.getUserTokenInfo tc rt nowMs = (none, tc) := by
    simp only [TokenCacheManager.getUserTokenInfo, htc]
  have href : ∀ a b, AuthService.refreshUserToken tc rt a b nowMs upR =
      (.error { message := "无法获取token信息: " ++ rt }, tc) := by
    intro a b
    simp only [AuthService.refreshUserToken, hgti]
  unfold FeishuOAuthServer.handleTokenExchange
  rw [if_neg (by simp [FeishuOAuthServer.optTruthy, hrt])]
  rw [if_neg (by simp)]
  rw [if_neg (by simp)]
  rw [if_neg (by simp [FeishuOAuthServer.optTruthy, hrt])]
  rw [if_neg (by simp)]
  simp only [Option.getD_some]
  rw [hcm]
  simp only
  rw [if_neg (by simp)]
  rw [href]

/-- Claim C4 witness: the amended statement at a concrete empty cache. -/
theorem C4_unknown_refresh_token_server_error_witness :
    FeishuOAuthServer.handleTokenExchange ⟨"app", "sec", "user"⟩
      { grant_type := some "refresh_token", refresh_token := some "unknown-rt" }
      [] (fun _ => none) "fresh" 12345 (.error {}) (.error {}) =
    (.oauthError 500 "server_error", []) :=
  C4_unknown_refresh_token_server_error ⟨"app", "sec", "user"⟩ "unknown-rt" []
    (fun _ => none) "fresh" 12345 (.error {}) (.error {})
    (by decide) (by decide) (fun k => rfl)

/-! ## Claim C6 — stale state blobs are rejected by the callback -/

/-- Claim C6: whenever the callback query carries no upstream error, a
truthy `code` and `state`, and the decoded state blob has a numeric
`timestamp` more than five minutes older than the current time
(`now - timestamp > 5 * 60 * 1000`), `handleFeishuCallback` answers with
the expiry rejection — it never reaches the redirect branch, regardless of
the `code` value. -/
theorem C6_stale_state_rejected :
    ∀ (q : FeishuOAuthServer.CbQuery) (nowMs : Nat) (j : Js.Json) (t : Int),
      FeishuOAuthServer.optTruthy q.error = false →
      FeishuOAuthServer.optTruthy q.code = true →
      FeishuOAuthServer.optTruthy q.state = true →
      AuthUtils.decodeStatePipeline (q.state.getD "") = some j →
      Js.jGet j "timestamp" = some (.num t) →
      (nowMs : Int) - t > 5 * 60 * 1000 →
      FeishuOAuthServer.handleFeishuCallback q nowMs = .stateExpired := by
  intro q nowMs j t herr hcode hstate hdec hts hold
  unfold FeishuOAuthServer.handleFeishuCallback
  rw [if_neg (by simp [herr])]
  rw [if_neg (by simp [hcode, hstate])]
  rw [hdec]
  cases j with
  | null => exact absurd hts (by simp [Js.jGet])
  | bool b => simp [hts]; intro h; exfalso; omega
  | num n => simp [hts]; intro h; exfalso; omega
  | str s => simp [hts]; intro h; exfalso; omega
  | arr xs => simp [hts]; intro h; exfalso; omega
  | obj fs => simp [hts]; intro h; exfalso; omega

/-- Claim C6 witness: a concrete state blob stamped at time 0, presented at
time 600000 ms (ten minutes later), is rejected as expired even though a
code is present. -/
theorem C6_stale_state_rejected_witness :
    FeishuOAuthServer.handleFeishuCallback
      { code := some "valid-code"
        state := some (String.mk (B64.encode (Utf8.encodeList
          (Js.stringify (Js.Json.obj [("timestamp", Js.Json.num 0)])))))
        error := none } 600000 = .stateExpired :=
  C6_stale_state_rejected
    { code := some "valid-code"
      state := some (String.mk (B64.encode (Utf8.encodeList
        (Js.stringify (Js.Json.obj [("timestamp", Js.Json.num 0)])))))
      error := none } 600000 (Js.Json.obj [("timestamp", Js.Json.num 0)]) 0
    rfl rfl rfl
    (by
      show Js.jsonParse (Utf8.decode (B64.decode
          (B64.encode (Utf8.encodeList
            (Js.stringify (Js.Json.obj [("timestamp", Js.Json.num 0)])))))) =
        some (Js.Json.obj [("timestamp", Js.Json.num 0)])
      rw [B64.decode_encode _ (Utf8.encodeList_bytes_lt _), Utf8.decode_encodeList]
      exact Js.RT.jsonParse_stringify_obj _ (by simp)
        (by intro f hf; simp at hf; rw [hf]; exact Or.inr ⟨0, rfl⟩))
    rfl (by decide)

/-! ## Claim C7 — authorization-failure response by caller capability -/

/-- Claim C7 counterexample: a legacy caller (one for which
`isUserAuthSupported` is false) receives HTTP status 500, not the claimed
200 — the source sets `statusCode: 500` on the link-bearing response. -/
theorem C7_counterexample :
    (generateAuthErrorResponse ⟨"app", "sec", "user"⟩ false
      "http://localhost:3333" "k1").statusCode = 500 ∧ (500 : Nat) ≠ 200 :=
  ⟨rfl, by decide⟩

/-- Claim C7 (amended): when token validation fails, the response shape
depends on the caller's capability as computed by `isUserAuthSupported`
from the request's user agent: a capable caller receives a standard 401
with the machine-readable error code `unauthorized`, while a legacy caller
receives an HTTP 500 response (not 200) whose description embeds the
human-followable Feishu authorization link. -/
theorem C7_caller_capability :
    ∀ (cfg : FeishuConfig) (req : AuthRequest) (baseUrl reqKey : String),
      generateAuthErrorResponse cfg (isUserAuthSupported req) baseUrl reqKey =
        (if isUserAuthSupported req then
          { error := "unauthorized"
            error_description :=
              "Missing or invalid Authorization header. Please provide a valid user access token."
            statusCode := 401 }
         else
          { error := "unauthorized"
            error_description := "请提示用戶在浏览器打开以下链接进行授权：\n\n[点击授权](" ++
              ("https://accounts.feishu.cn/open-apis/authen/v1/authorize?client_id=" ++
               cfg.appId ++ "&redirect_uri=" ++
               encodeURIComponent (baseUrl ++ "/callback?baseUrl=" ++ baseUrl) ++
               "&scope=" ++ encodeURIComponent rawScope ++ "&state=" ++ reqKey) ++ ")"
            statusCode := 500 }) := by
  intro cfg req baseUrl reqKey
  cases h : isUserAuthSupported req <;> simp [generateAuthErrorResponse]

/-! ## Claim C10 — state encode/decode round-trip and totality -/

/-- Claim C10: `decodeState` is a left inverse of `encodeState` — the
base64-encoded JSON blob decodes back to the exact state object, whose
`appId`, `appSecret`, `clientKey`, `redirectUri` and `timestamp` members
project to the encoded values — and on any input whose base64/UTF-8/JSON
pipeline fails to parse, `decodeState` returns `none` (the model of the
caught throw returning `null`) rather than diverging. -/
theorem C10_state_roundtrip :
    ∀ (appId appSecret clientKey : String) (redirectUri : Option String) (ts : Nat),
      AuthUtils.decodeState (AuthUtils.encodeState appId appSecret clientKey redirectUri ts) =
        some (AuthUtils.stateJson appId appSecret clientKey redirectUri ts) ∧
      Js.jGetStr (AuthUtils.stateJson appId appSecret clientKey redirectUri ts) "appId" =
        some appId ∧
      Js.jGetStr (AuthUtils.stateJson appId appSecret clientKey redirectUri ts) "appSecret" =
        some appSecret ∧
      Js.jGetStr (AuthUtils.stateJson appId appSecret clientKey redirectUri ts) "clientKey" =
        some clientKey ∧
      Js.jGetStr (AuthUtils.stateJson appId appSecret clientKey redirectUri ts) "redirectUri" =
        redirectUri ∧
      Js.jGetNum (AuthUtils.stateJson appId appSecret clientKey redirectUri ts) "timestamp" =
        some (ts : Int) ∧
      (∀ s, Js.jsonParse (Utf8.decode (B64.decode s.data)) = none →
        AuthUtils.decodeState s = none) := by
  intro a b c r ts
  have hround : AuthUtils.decodeState (AuthUtils.encodeState a b c r ts) =
      some (AuthUtils.stateJson a b c r ts) := by
    show Js.jsonParse (Utf8.decode (B64.decode
        (B64.encode (Utf8.encodeList (Js.stringify (AuthUtils.stateJson a b c r ts)))))) = _
    rw [B64.decode_encode _ (Utf8.encodeList_bytes_lt _), Utf8.decode_encodeList]
    rcases r with _ | r
    · show Js.jsonParse (Js.stringify (Js.Json.obj
          ([("appId", .str a), ("appSecret", .str b), ("clientKey", .str c)] ++ [] ++
           [("timestamp", .num (ts : Int))]))) =
        some (Js.Json.obj
          ([("appId", .str a), ("appSecret", .str b), ("clientKey", .str c)] ++ [] ++
           [("timestamp", .num (ts : Int))]))
      refine Js.RT.jsonParse_stringify_obj _ (by simp) ?_
      intro f hf
      simp only [List.append_nil, List.mem_append, List.mem_cons,
        List.not_mem_nil, or_false, List.mem_singleton] at hf
      rcases hf with (rfl | rfl | rfl) | rfl
      · exact Or.inl ⟨a, rfl⟩
      · exact Or.inl ⟨b, rfl⟩
      · exact Or.inl ⟨c, rfl⟩
      · exact Or.inr ⟨ts, rfl⟩
    · show Js.jsonParse (Js.stringify (Js.Json.obj
          ([("appId", .str a), ("appSecret", .str b), ("clientKey", .str c)] ++
           [("redirectUri", .str r)] ++ [("timestamp", .num (ts : Int))]))) =
        some (Js.Json.obj
          ([("appId", .str a), ("appSecret", .str b), ("clientKey", .str c)] ++
           [("redirectUri", .str r)] ++ [("timestamp", .num (ts : Int))]))
      refine Js.RT.jsonParse_stringify_obj _ (by simp) ?_
      intro f hf
      simp only [List.mem_append, List.mem_cons, List.not_mem_nil, or_false,
        List.mem_singleton] at hf
      rcases hf with ((rfl | rfl | rfl) | rfl) | rfl
      · exact Or.inl ⟨a, rfl⟩
      · exact Or.inl ⟨b, rfl⟩
      · exact Or.inl ⟨c, rfl⟩
      · exact Or.inl ⟨r, rfl⟩
      · exact Or.inr ⟨ts, rfl⟩
  refine ⟨hround, ?_, ?_, ?_, ?_, ?_, fun s h => h⟩
  · rcases r with _ | r <;> rfl
  · rcases r with _ | r <;> rfl
  · rcases r with _ | r <;> rfl
  · rcases r with _ | r <;> rfl
  · rcases r with _ | r <;> rfl

/-- Claim C10 witness: the round-trip at concrete values, and a concrete
string outside the base64-JSON image decoding to `none`. -/
theorem C10_state_roundtrip_witness :
    AuthUtils.decodeState (AuthUtils.encodeState "a" "b" "ck" (some "http://x") 7) =
      some (AuthUtils.stateJson "a" "b" "ck" (some "http://x") 7) ∧
    AuthUtils.decodeState "%%%" = none := by
  refine ⟨(C10_state_roundtrip "a" "b" "ck" (some "http://x") 7).1, ?_⟩
  exact (C10_state_roundtrip "a" "b" "ck" (some "http://x") 7).2.2.2.2.2.2 "%%%"
    (by
      rw [show B64.decode (String.data "%%%") = [] from rfl, Utf8.decode_nil]
      simp [Js.jsonParse, Js.parseVal, Js.skipWs])
